import Mathlib

/-!
Verification of the pdf_metadata library (src/lib.rs) against its
specification.

Modelling conventions:
* A Rust byte sequence (`Vec<u8>`, `&[u8]`) is a `List Nat` whose elements
  are the byte values.
* A Rust `String` / `&str` is represented by its UTF-8 byte list, so Rust
  string equality is byte-list equality, `str::len` is `List.length`, and
  byte-indexed slicing with its char-boundary panic condition can be
  modelled faithfully.
* Unicode code points are plain `Nat`s.
* Fallible Rust code returns `Option`/`Except`; a possible panic is
  modelled as `Option.none` at the point where it can occur.
-/

namespace PdfMeta

/-- UTF-8 encoding of one code point (standard 1/2/3/4 byte forms). -/
def utf8EncodeChar (c : Nat) : List Nat :=
  if c < 0x80 then [c]
  else if c < 0x800 then [0xC0 + c / 64, 0x80 + c % 64]
  else if c < 0x10000 then [0xE0 + c / 4096, 0x80 + c / 64 % 64, 0x80 + c % 64]
  else [0xF0 + c / 262144, 0x80 + c / 4096 % 64, 0x80 + c / 64 % 64, 0x80 + c % 64]

/-- UTF-8 encoding of a list of code points. -/
def utf8Encode (cs : List Nat) : List Nat := cs.flatMap utf8EncodeChar

/-- Byte list of a Lean string literal (used to transcribe the string
constants appearing in the source). -/
def litB (s : String) : List Nat := utf8Encode (s.data.map Char.toNat)

/-- The UTF-8 bytes of the replacement character U+FFFD. -/
def fffd : List Nat := [0xEF, 0xBF, 0xBD]

/-- Is `c` a UTF-8 continuation byte? -/
def isCont (c : Nat) : Bool := 0x80 ≤ c && c ≤ 0xBF

/-- Lower bound for the first continuation byte after lead byte `b`
(the E0/ED/F0/F4 special ranges of well-formed UTF-8). -/
def cont1Lo (b : Nat) : Nat :=
  if b = 0xE0 then 0xA0 else if b = 0xF0 then 0x90 else 0x80

/-- Upper bound for the first continuation byte after lead byte `b`. -/
def cont1Hi (b : Nat) : Nat :=
  if b = 0xED then 0x9F else if b = 0xF4 then 0x8F else 0xBF

/-- Model of Rust `String::from_utf8_lossy` at the byte level: well-formed
sequences are copied verbatim, each maximal invalid subpart is replaced by
the three UTF-8 bytes of U+FFFD (the substitution-of-maximal-subparts
policy used by `core::str`). -/
def utf8Lossy : List Nat → List Nat
  | [] => []
  | b :: r =>
    if b < 0x80 then b :: utf8Lossy r
    else if 0xC2 ≤ b && b ≤ 0xDF then
      match r with
      | [] => fffd
      | c1 :: r1 =>
        if isCont c1 then b :: c1 :: utf8Lossy r1
        else fffd ++ utf8Lossy (c1 :: r1)
    else if 0xE0 ≤ b && b ≤ 0xEF then
      match r with
      | [] => fffd
      | c1 :: r1 =>
        if cont1Lo b ≤ c1 && c1 ≤ cont1Hi b then
          match r1 with
          | [] => fffd
          | c2 :: r2 =>
            if isCont c2 then b :: c1 :: c2 :: utf8Lossy r2
            else fffd ++ utf8Lossy (c2 :: r2)
        else fffd ++ utf8Lossy (c1 :: r1)
    else if 0xF0 ≤ b && b ≤ 0xF4 then
      match r with
      | [] => fffd
      | c1 :: r1 =>
        if cont1Lo b ≤ c1 && c1 ≤ cont1Hi b then
          match r1 with
          | [] => fffd
          | c2 :: r2 =>
            if isCont c2 then
              match r2 with
              | [] => fffd
              | c3 :: r3 =>
                if isCont c3 then b :: c1 :: c2 :: c3 :: utf8Lossy r3
                else fffd ++ utf8Lossy (c3 :: r3)
            else fffd ++ utf8Lossy (c2 :: r2)
        else fffd ++ utf8Lossy (c1 :: r1)
    else fffd ++ utf8Lossy r

/-- Model of Rust `str::chars` on the UTF-8 bytes of a string: the decoded
code points.  It mirrors `utf8Lossy` (invalid input, which cannot occur for
a genuine Rust string, yields U+FFFD). -/
def utf8Chars : List Nat → List Nat
  | [] => []
  | b :: r =>
    if b < 0x80 then b :: utf8Chars r
    else if 0xC2 ≤ b && b ≤ 0xDF then
      match r with
      | [] => [0xFFFD]
      | c1 :: r1 =>
        if isCont c1 then ((b - 0xC0) * 64 + (c1 - 0x80)) :: utf8Chars r1
        else 0xFFFD :: utf8Chars (c1 :: r1)
    else if 0xE0 ≤ b && b ≤ 0xEF then
      match r with
      | [] => [0xFFFD]
      | c1 :: r1 =>
        if cont1Lo b ≤ c1 && c1 ≤ cont1Hi b then
          match r1 with
          | [] => [0xFFFD]
          | c2 :: r2 =>
            if isCont c2 then
              ((b - 0xE0) * 4096 + (c1 - 0x80) * 64 + (c2 - 0x80)) :: utf8Chars r2
            else 0xFFFD :: utf8Chars (c2 :: r2)
        else 0xFFFD :: utf8Chars (c1 :: r1)
    else if 0xF0 ≤ b && b ≤ 0xF4 then
      match r with
      | [] => [0xFFFD]
      | c1 :: r1 =>
        if cont1Lo b ≤ c1 && c1 ≤ cont1Hi b then
          match r1 with
          | [] => [0xFFFD]
          | c2 :: r2 =>
            if isCont c2 then
              match r2 with
              | [] => [0xFFFD]
              | c3 :: r3 =>
                if isCont c3 then
                  ((b - 0xF0) * 262144 + (c1 - 0x80) * 4096 +
                    (c2 - 0x80) * 64 + (c3 - 0x80)) :: utf8Chars r3
                else 0xFFFD :: utf8Chars (c3 :: r3)
            else 0xFFFD :: utf8Chars (c2 :: r2)
        else 0xFFFD :: utf8Chars (c1 :: r1)
    else 0xFFFD :: utf8Chars r

/-- Model of Rust `String::from_utf16`: code units to code points,
`none` exactly when a surrogate is unmatched (the `Err` case). -/
def utf16ToCodepoints : List Nat → Option (List Nat)
  | [] => some []
  | u :: r =>
    if u < 0xD800 || 0xE000 ≤ u then
      (utf16ToCodepoints r).map (u :: ·)
    else if u ≤ 0xDBFF then
      match r with
      | u2 :: r2 =>
        if 0xDC00 ≤ u2 && u2 ≤ 0xDFFF then
          (utf16ToCodepoints r2).map
            ((0x10000 + (u - 0xD800) * 0x400 + (u2 - 0xDC00)) :: ·)
        else none
      | [] => none
    else none

/-- `chunks_exact(2)` + `u16::from_be_bytes`: big-endian 16-bit units. -/
def toPairsBE : List Nat → List Nat
  | b0 :: b1 :: r => (256 * b0 + b1) :: toPairsBE r
  | _ => []

/-- `chunks_exact(2)` + `u16::from_le_bytes`: little-endian 16-bit units. -/
def toPairsLE : List Nat → List Nat
  | b0 :: b1 :: r => (256 * b1 + b0) :: toPairsLE r
  | _ => []

/-- One hexadecimal digit of `u8::from_str_radix(_, 16)`. -/
def hexDigit? (c : Nat) : Option Nat :=
  if 48 ≤ c && c ≤ 57 then some (c - 48)
  else if 97 ≤ c && c ≤ 102 then some (c - 87)
  else if 65 ≤ c && c ≤ 70 then some (c - 55)
  else none

/-- Model of `u8::from_str_radix(&format!("{}{}", c1, c2), 16)` for the
two chars of a chunk: an optional leading sign is accepted by Rust
(`"+A"` parses to 10, `"-0"` to 0, any other negative value underflows). -/
def parse2Hex (c1 c2 : Nat) : Option Nat :=
  if c1 = 43 then hexDigit? c2
  else if c1 = 45 then
    match hexDigit? c2 with
    | some 0 => some 0
    | _ => none
  else
    match hexDigit? c1, hexDigit? c2 with
    | some a, some b => some (16 * a + b)
    | _, _ => none

/-- The char-pair loop of `hex_to_bytes` (`chunks(2)`; a trailing chunk of
length one is skipped by the `chunk.len() == 2` test). -/
def hexPairs : List Nat → Option (List Nat)
  | c1 :: c2 :: r =>
    match parse2Hex c1 c2 with
    | some b => (hexPairs r).map (b :: ·)
    | none => none
  | _ => some []

/-- Model of `hex_to_bytes`: `hex.len()` is the byte length of the `&str`,
the loop runs over its chars. `none` is the `Err` result. -/
def hexToBytes (s : List Nat) : Option (List Nat) :=
  if s.length % 2 ≠ 0 then none
  else hexPairs (utf8Chars s)

/-- The base64 alphabet string of `base64_to_bytes`, as code points. -/
def b64Alphabet : List Nat :=
  litB "ABCDEFGHIJKLMNOPQRSTUVWXYZabcdefghijklmnopqrstuvwxyz0123456789+/"

/-- `iter().position(|&x| x == byte)`. -/
def posIn : List Nat → Nat → Option Nat
  | [], _ => none
  | x :: r, c => if x = c then some 0 else (posIn r c).map (· + 1)

/-- `chars.as_bytes().iter().position(|&x| x == byte)`. -/
def b64Pos (c : Nat) : Option Nat := posIn b64Alphabet c

/-- The inner loop of `base64_to_bytes`: fill `values` from the chunk,
stopping at the first `=`; `none` models the `Err("Invalid BASE64
character")` return. -/
def b64Values : List Nat → Option (List Nat)
  | [] => some []
  | c :: r =>
    if c = 61 then some []
    else
      match b64Pos c with
      | some p => (b64Values r).map (p :: ·)
      | none => none

/-- One chunk of up to 4 cleaned characters: the three conditional pushes
of `base64_to_bytes`.  `values[i]` is zero past the `=` break, and the u8
shift `values[1] << 4` / `values[2] << 6` wraps modulo 256. -/
def b64Chunk (chunk : List Nat) : Option (List Nat) :=
  (b64Values chunk).map fun vs =>
    let v : Nat → Nat := fun i => (vs.drop i).headD 0
    let c : Nat → Nat := fun i => (chunk.drop i).headD 61
    [v 0 * 4 % 256 + v 1 / 16] ++
      (if 2 < chunk.length && c 2 ≠ 61 then [v 1 * 16 % 256 + v 2 / 4] else []) ++
      (if 3 < chunk.length && c 3 ≠ 61 then [(v 2 * 64) % 256 + v 3] else [])

/-- The chunk loop of `base64_to_bytes` over `chunks(4)` of the cleaned
string (a trailing chunk of length `< 2` breaks out of the loop). -/
def b64Chunks : List Nat → Option (List Nat)
  | [] => some []
  | [_] => some []
  | [c1, c2] => b64Chunk [c1, c2]
  | [c1, c2, c3] => b64Chunk [c1, c2, c3]
  | c1 :: c2 :: c3 :: c4 :: r =>
    match b64Chunk [c1, c2, c3, c4] with
    | some bs => (b64Chunks r).map (bs ++ ·)
    | none => none

/-- Model of `base64_to_bytes`: filter the chars down to the alphabet plus
`=`, then decode 4-char chunks.  `none` is the `Err` result. -/
def base64ToBytes (s : List Nat) : Option (List Nat) :=
  b64Chunks (s.filter fun c => b64Alphabet.contains c || c = 61)

/-- The UTF-16BE branch of `decode_pdf_string` (and the identical inline
copy in `info_value_to_string`): fires only when the bytes start with the
big-endian BOM; `some` only when the BOM-stripped remainder has even
length and the code units decode (any failure falls out of the branch). -/
def beAttempt (bytes : List Nat) : Option (List Nat) :=
  if 2 ≤ bytes.length ∧ bytes.get? 0 = some 0xFE ∧ bytes.get? 1 = some 0xFF then
    if (bytes.drop 2).length % 2 = 0 then
      (utf16ToCodepoints (toPairsBE (bytes.drop 2))).map utf8Encode
    else none
  else none

/-- The UTF-16LE branch of `decode_pdf_string` (and its inline copy). -/
def leAttempt (bytes : List Nat) : Option (List Nat) :=
  if 2 ≤ bytes.length ∧ bytes.get? 0 = some 0xFF ∧ bytes.get? 1 = some 0xFE then
    if (bytes.drop 2).length % 2 = 0 then
      (utf16ToCodepoints (toPairsLE (bytes.drop 2))).map utf8Encode
    else none
  else none

/-- Model of `decode_pdf_string`: BOM-detect, fall back to UTF-8-lossy. -/
def decode_pdf_string (bytes : List Nat) : List Nat :=
  match beAttempt bytes with
  | some s => s
  | none =>
    match leAttempt bytes with
    | some s => s
    | none => utf8Lossy bytes

/-- Is byte index `i` a char boundary of the (valid UTF-8) string `s`?
Rust: start, end, or a byte that is not a continuation byte. -/
def isBoundary (s : List Nat) (i : Nat) : Bool :=
  if i = 0 ∨ i = s.length then true
  else
    match s.get? i with
    | some b => !isCont b
    | none => false

/-- Model of the Rust slice `&s[i..]`: `none` is the out-of-bounds /
non-boundary panic. -/
def strSliceFrom? (s : List Nat) (i : Nat) : Option (List Nat) :=
  if i ≤ s.length ∧ isBoundary s i then some (s.drop i) else none

/-- Model of the Rust slice `&s[i..j]`. -/
def strSliceRange? (s : List Nat) (i j : Nat) : Option (List Nat) :=
  if i ≤ j ∧ j ≤ s.length ∧ isBoundary s i ∧ isBoundary s j then
    some ((s.drop i).take (j - i))
  else none

/-- `lopdf::StringFormat` (never inspected by the code under study). -/
inductive StringFormat where
  | literal
  | hexadecimal
deriving DecidableEq, Repr

/-- `lopdf::ObjectId`. -/
abbrev ObjId := Nat × Nat

/-- The `lopdf::Object` variants visible to this library.  A `real`
carries the decimal text that `f.to_string()` renders (f32 formatting
itself is outside the model); `stream` content is never inspected. -/
inductive Obj where
  | null
  | boolean (b : Bool)
  | integer (i : Int)
  | real (text : List Nat)
  | name (bytes : List Nat)
  | string (bytes : List Nat) (fmt : StringFormat)
  | array (elems : List Obj)
  | dictionary (d : List (List Nat × Obj))
  | stream
  | reference (id : ObjId)

/-- `Object::type_name` for the kinds reaching the catch-all arm. -/
def typeName : Obj → List Nat
  | .null => litB "Null"
  | .boolean _ => litB "Boolean"
  | .integer _ => litB "Integer"
  | .real _ => litB "Real"
  | .name _ => litB "Name"
  | .string _ _ => litB "String"
  | .array _ => litB "Array"
  | .dictionary _ => litB "Dictionary"
  | .stream => litB "Stream"
  | .reference _ => litB "Reference"

/-- Decimal digits, fuel-driven so that it evaluates by reduction (the
fuel `n + 1` always suffices since `n / 10 < n` for `n ≥ 10`). -/
def natDecAux : Nat → Nat → List Nat
  | 0, _ => []
  | f + 1, n =>
    if n < 10 then [48 + n]
    else natDecAux f (n / 10) ++ [48 + n % 10]

/-- Decimal digits of a natural number, as ASCII bytes. -/
def natDec (n : Nat) : List Nat := natDecAux (n + 1) n

/-- `i64::to_string`. -/
def intDec (i : Int) : List Nat :=
  if i < 0 then 45 :: natDec i.natAbs else natDec i.natAbs

/-- The literal tag `"UTF16BE:"` as bytes. -/
def tagB : List Nat := litB "UTF16BE:"

/-- The tag stage of `info_value_to_string` (lines 165-174): fires when
the lossy-decoded string starts with `UTF16BE:`; base64-decodes the
remainder and BOM-decodes the result, returning the string unchanged if
base64 decoding fails.  Outer `none` = guard did not match; `some none` =
panic in the slice; `some (some r)` = early return with `r`. -/
def tryTag (s : List Nat) : Option (Option (List Nat)) :=
  if tagB <+: s then
    some (match strSliceFrom? s 8 with
          | none => none
          | some t =>
            match base64ToBytes (utf8Chars t) with
            | some db => some (decode_pdf_string db)
            | none => some s)
  else none

/-- The first hex stage (lines 177-183): angle brackets around the lossy
string; on a hex decoding error control falls through (outer `none`). -/
def tryHexStr (s : List Nat) : Option (Option (List Nat)) :=
  if s.head? = some 60 ∧ s.getLast? = some 62 then
    match strSliceRange? s 1 (s.length - 1) with
    | none => some none
    | some hx =>
      match hexToBytes hx with
      | some hb => some (some (decode_pdf_string hb))
      | none => none
  else none

/-- The second hex stage (lines 186-191), on the raw bytes: the vector
indexing is guarded by `len > 4` so it cannot panic. -/
def tryHexRaw (vb : List Nat) : Option (List Nat) :=
  if 4 < vb.length ∧ vb.head? = some 60 ∧ vb.getLast? = some 62 then
    match hexToBytes (utf8Lossy ((vb.drop 1).take (vb.length - 2))) with
    | some hb => some (decode_pdf_string hb)
    | none => none
  else none

/-- Model of `info_value_to_string`.  The result is `none` exactly when
the Rust code would panic (a slice outside a char boundary); every normal
path yields `some`.  The `object.as_str()` call (line 226) always succeeds
for a `String` object, returning its raw bytes, so the branch coincides
with the final lossy fallback. -/
def info_value_to_string : Obj → Option (List Nat)
  | .string vb _ =>
    let s := utf8Lossy vb
    (match tryTag s with
     | some r => r
     | none =>
       match tryHexStr s with
       | some r => r
       | none =>
         match tryHexRaw vb with
         | some r => some r
         | none =>
           match beAttempt vb with
           | some r => some r
           | none =>
             match leAttempt vb with
             | some r => some r
             | none => some (utf8Lossy vb))
  | .name nb => some (utf8Lossy nb)
  | .integer i => some (intDec i)
  | .real t => some t
  | .boolean b => some (if b then litB "true" else litB "false")
  | .null => some (litB "null")
  | o => some (litB "<Tipo " ++ typeName o ++ litB " não processado>")

/-- The decode chain exactly as the specification words it (§4.1, claim
C2): BOM stages first, then the angle-bracket hex wrapper on the
decoded-as-UTF-8 text, then the tagged-base64 form, then UTF-8-lossy;
each stage validates and falls through on failure.  This definition
follows the words of the spec; the theorem for C2 compares it with
`info_value_to_string`, which follows the source. -/
def specDecodeChain (vb : List Nat) : List Nat :=
  match beAttempt vb with
  | some r => r
  | none =>
    match leAttempt vb with
    | some r => r
    | none =>
      let s := utf8Lossy vb
      match
        (if s.head? = some 60 ∧ s.getLast? = some 62 then
          hexToBytes ((s.drop 1).take (s.length - 2))
        else none) with
      | some hb => decode_pdf_string hb
      | none =>
        if tagB <+: s then
          match base64ToBytes (utf8Chars (s.drop 8)) with
          | some db => decode_pdf_string db
          | none => s
        else utf8Lossy vb

/-! ### The document model

`lopdf::Document` as used by this library: a trailer dictionary, an
object store keyed by `ObjectId`, and the `max_id` counter that
`add_object` increments.  Dictionaries are insertion-ordered key/value
lists (`lopdf` uses a linked hash map); `set` overwrites in place. -/

/-- A `lopdf::Dictionary`: insertion-ordered entries. -/
abbrev Dict := List (List Nat × Obj)

/-- `Dictionary::get`. -/
def dictGet (d : Dict) (k : List Nat) : Option Obj :=
  (d.find? fun kv => kv.1 = k).map Prod.snd

/-- `Dictionary::set`: overwrite the entry in place, else append (the
linked hash map keeps the insertion position on overwrite). -/
def dictSet : Dict → List Nat → Obj → Dict
  | [], k, v => [(k, v)]
  | kv :: r, k, v => if kv.1 = k then (k, v) :: r else kv :: dictSet r k v

/-- `Object::as_reference`. -/
def asReference : Obj → Option ObjId
  | .reference id => some id
  | _ => none

/-- A loaded `lopdf::Document` (the parts this library touches). -/
structure Doc where
  trailer : Dict
  objects : List (ObjId × Obj)
  maxId : Nat

/-- Lookup in the object store (`Document::get_object`). -/
def objGet (os : List (ObjId × Obj)) (id : ObjId) : Option Obj :=
  (os.find? fun e => e.1 = id).map Prod.snd

/-- Insert/replace in the object store (a `BTreeMap` in `lopdf`). -/
def objSet : List (ObjId × Obj) → ObjId → Obj → List (ObjId × Obj)
  | [], id, v => [(id, v)]
  | e :: r, id, v => if e.1 = id then (id, v) :: r else e :: objSet r id v

/-- The `Info` trailer key. -/
def infoKey : List Nat := litB "Info"

/-- The `ModDate` dictionary key. -/
def modDateKey : List Nat := litB "ModDate"

/-- Locate-or-create the Info dictionary: the shared opening of
`set_metadata` / `update_metadata_in_place` / `set_pdf_metadata`
(lib.rs lines 299-312).  Returns the document (possibly with a fresh
empty Info dictionary installed) and the target object id. -/
def locateInfo (d : Doc) : Doc × ObjId :=
  match (dictGet d.trailer infoKey).bind asReference with
  | some id => (d, id)
  | none =>
    let id : ObjId := (d.maxId + 1, 0)
    ({ trailer := dictSet d.trailer infoKey (.reference id),
       objects := objSet d.objects id (.dictionary []),
       maxId := d.maxId + 1 }, id)

/-- The Put operation shared by all write entry points (lib.rs lines
299-334): locate-or-create Info, store the literal-encoded value under
`key`, then unconditionally store the `ModDate` stamp.  `none` models the
`?`-propagated errors of `get_object_mut` / `as_dict_mut`. -/
def putMeta (d : Doc) (key value stamp : List Nat) : Option Doc :=
  let (d1, id) := locateInfo d
  match objGet d1.objects id with
  | some (.dictionary dict) =>
    let dict1 := dictSet dict key (.string value .literal)
    let dict2 := dictSet dict1 modDateKey (.string stamp .literal)
    some { d1 with objects := objSet d1.objects id (.dictionary dict2) }
  | _ => none

/-- The store step of `set_metadata` (lib.rs lines 317-320): a value is
always stored as `Object::string_literal`, i.e. its plain UTF-8 bytes. -/
def encodeMeta (value : List Nat) : Obj := .string value .literal

/-- The entry loop of `get_metadata` / `get_pdf_metadata`: keys are
UTF-8-lossy decoded, values go through `info_value_to_string`; a `none`
(panic) anywhere aborts. -/
def mapEntries : Dict → Option (List (List Nat × List Nat))
  | [] => some []
  | (k, v) :: r =>
    match info_value_to_string v, mapEntries r with
    | some s, some l => some ((utf8Lossy k, s) :: l)
    | _, _ => none

/-- The List operation shared by `get_metadata` and `get_pdf_metadata`
(lib.rs lines 501-523): absence of the Info dictionary at any stage
yields the empty collection, never an error. -/
def listMeta (d : Doc) : Option (List (List Nat × List Nat)) :=
  match (dictGet d.trailer infoKey).bind asReference with
  | none => some []
  | some id =>
    match objGet d.objects id with
    | none => some []
    | some o =>
      match o with
      | .dictionary dict => mapEntries dict
      | _ => some []

/-- `get_pdf_metadata`, parameterized over the external `load_mem`
collaborator (`parse` is the document-graph black box of spec §6). -/
def get_pdf_metadata (parse : List Nat → Option Doc) (content : List Nat) :
    Option (Option (List (List Nat × List Nat))) :=
  (parse content).map listMeta

/-! ### The ModDate stamp -/

/-- Rust `i32` division: truncation toward zero. -/
def rustDiv (a : Int) (b : Nat) : Int :=
  if 0 ≤ a then Int.ofNat (a.natAbs / b) else -(Int.ofNat (a.natAbs / b))

/-- `{:02}` formatting of a non-negative number. -/
def pad2 (n : Nat) : List Nat :=
  if n < 10 then [48, 48 + n] else natDec n

/-- The PDF date stamp of lib.rs lines 322-333: `datePart` stands for
`now.format("%Y%m%d%H%M%S")` (the chrono clock is injected, per spec §9);
`off` is `offset.local_minus_utc()` in seconds.  39 is the ASCII quote
used around the minute field. -/
def pdfDate (datePart : List Nat) (off : Int) : List Nat :=
  let offsetHours : Int := rustDiv off 3600
  let offsetMinutes : Nat := off.natAbs % 3600 / 60
  let offsetSign : Nat := if 0 ≤ off then 43 else 45
  litB "D:" ++ datePart ++ [offsetSign] ++ pad2 offsetHours.natAbs ++ [39] ++
    pad2 offsetMinutes ++ [39]

/-! ### The atomic-replace protocol (`update_metadata_in_place`)

The filesystem is a map from paths to file contents.  Paths are plain
file names inside one working directory (for such paths `Path::parent`
always succeeds, so the `parent_dir` error branch of line 438 cannot
fire; directories are outside the model).  The fallible external steps —
`Document::load` parsing, `doc.save`, `fs::rename`, `fs::remove_file` —
are injected: `parse`/`serialize` model the document-graph collaborator
and an `FsOracle` fixes the outcome of each filesystem side effect. -/

/-- Filesystem state: path ↦ contents. -/
def FS := List Nat → Option (List Nat)

/-- Write (create or overwrite) a file. -/
def fsSet (fs : FS) (p : List Nat) (b : List Nat) : FS :=
  fun q => if q = p then some b else fs q

/-- Delete a file. -/
def fsRemove (fs : FS) (p : List Nat) : FS :=
  fun q => if q = p then none else fs q

/-- Index of the last `.` in a file name, if any. -/
def lastDotIdx : List Nat → Option Nat
  | [] => none
  | c :: r =>
    match lastDotIdx r with
    | some j => some (j + 1)
    | none => if c = 46 then some 0 else none

/-- `Path::file_stem` for a plain file name: the part before the last
dot, except that a leading dot with no later dot (a hidden file) keeps
the whole name. -/
def fileStem (l : List Nat) : List Nat :=
  match lastDotIdx l with
  | none => l
  | some p => if p = 0 then l else l.take p

/-- The temporary file name of lines 441-447:
`{stem}_{timestamp}.pdf.tmp`, with the `"temp_pdf_update"` fallback stem
for a path with no file name. -/
def tempName (path : List Nat) (ts : Nat) : List Nat :=
  (if path = [] then litB "temp_pdf_update" else fileStem path) ++
    [95] ++ natDec ts ++ litB ".pdf.tmp"

/-- Outcomes of the injected side effects of one in-place update. -/
structure FsOracle where
  /-- `SystemTime::now()` microseconds used in the temp name. -/
  ts : Nat
  /-- Does `doc.save(&temp_file_path)` succeed? -/
  saveOk : Bool
  /-- Bytes left behind at the temp path when the save fails
  (`none` = nothing was written). -/
  savePartial : Option (List Nat)
  /-- Does `fs::rename` succeed?  (On failure it changes nothing:
  the rename is atomic.) -/
  renameOk : Bool
  /-- Does the best-effort `fs::remove_file` cleanup succeed? -/
  removeOk : Bool

/-- The error taxonomy surfaced by `update_metadata_in_place`. -/
inductive UErr where
  | notFound
  | loadFailed
  | putFailed
  | saveFailed
  | renameFailed
deriving DecidableEq, Repr

/-- Model of `update_metadata_in_place` (lib.rs lines 383-464): existence
check, load, Put, save to a co-located temp file, rename onto the target;
on a save or rename failure the temp file is removed best-effort and the
error is surfaced. -/
def update_metadata_in_place (parse : List Nat → Option Doc)
    (serialize : Doc → List Nat) (env : FsOracle) (fs : FS)
    (path key value stamp : List Nat) : Except UErr Unit × FS :=
  match fs path with
  | none => (.error .notFound, fs)
  | some bytes =>
    match parse bytes with
    | none => (.error .loadFailed, fs)
    | some doc =>
      match putMeta doc key value stamp with
      | none => (.error .putFailed, fs)
      | some doc2 =>
        let temp := tempName path env.ts
        if env.saveOk then
          let fs1 := fsSet fs temp (serialize doc2)
          if env.renameOk then
            (.ok (), fsSet (fsRemove fs1 temp) path (serialize doc2))
          else
            (.error .renameFailed, if env.removeOk then fsRemove fs1 temp else fs1)
        else
          let fs1 := match env.savePartial with
            | some junk => fsSet fs temp junk
            | none => fs
          (.error .saveFailed, if env.removeOk then fsRemove fs1 temp else fs1)

/-! ### Structural lemmas about the lossy UTF-8 decoder -/

lemma utf8Lossy_nil : utf8Lossy [] = [] := by
  simp [utf8Lossy]

lemma utf8Lossy_cons_lo (b : Nat) (r : List Nat) (hb : b < 0x80) :
    utf8Lossy (b :: r) = b :: utf8Lossy r := by
  rw [utf8Lossy.eq_def]
  simp [hb]

/-- The first byte that `utf8Lossy` emits is either the input head (an
ASCII byte or a valid lead byte, never a continuation byte) or the first
byte of U+FFFD. -/
lemma utf8Lossy_head (b : Nat) (r : List Nat) :
    ((utf8Lossy (b :: r)).head? = some b ∧ (b < 0x80 ∨ 0xC2 ≤ b)) ∨
      (utf8Lossy (b :: r)).head? = some 0xEF := by
  rw [utf8Lossy.eq_def]
  rcases r with _ | ⟨c1, r1⟩
  · dsimp only
    split_ifs <;> simp_all [fffd] <;> omega
  · rcases r1 with _ | ⟨c2, r2⟩
    · dsimp only
      split_ifs <;> simp_all [fffd] <;> omega
    · rcases r2 with _ | ⟨c3, r3⟩
      · dsimp only
        split_ifs <;> simp_all [fffd] <;> omega
      · dsimp only
        split_ifs <;> simp_all [fffd] <;> omega

/-- The head of a lossy-decoded string is never a continuation byte. -/
lemma utf8Lossy_head_notCont {l : List Nat} {c : Nat}
    (h : (utf8Lossy l).head? = some c) : c < 0x80 ∨ 0xC2 ≤ c := by
  rcases l with _ | ⟨b, r⟩
  · simp [utf8Lossy_nil] at h
  · rcases utf8Lossy_head b r with ⟨h1, h2⟩ | h1 <;> rw [h1] at h <;>
      simp at h <;> omega

/-- Inversion: an ASCII head of the lossy output comes from the same
ASCII head of the input. -/
lemma utf8Lossy_ascii_cons_inv {l : List Nat} {c : Nat} {t : List Nat}
    (h : utf8Lossy l = c :: t) (hc : c < 0x80) :
    ∃ r, l = c :: r ∧ t = utf8Lossy r := by
  rcases l with _ | ⟨b, r⟩
  · simp [utf8Lossy_nil] at h
  · rcases utf8Lossy_head b r with ⟨h1, _⟩ | h1
    · rw [h] at h1
      simp at h1
      subst h1
      rw [utf8Lossy_cons_lo _ r hc] at h
      exact ⟨r, rfl, by simpa using h.symm⟩
    · rw [h] at h1
      simp at h1
      omega

/-! Branch lemmas: one unfolding step of `utf8Lossy` for each shape of
input window. -/

lemma utf8Lossy_one_hi (b : Nat) (hb : 0x80 ≤ b) : utf8Lossy [b] = fffd := by
  rw [utf8Lossy.eq_def]
  dsimp only
  have h : ¬ b < 0x80 := by omega
  split_ifs <;> simp [h, utf8Lossy_nil]

lemma utf8Lossy_two_valid (b c1 : Nat) (r1 : List Nat)
    (hb : 0xC2 ≤ b ∧ b ≤ 0xDF) (h1 : isCont c1 = true) :
    utf8Lossy (b :: c1 :: r1) = b :: c1 :: utf8Lossy r1 := by
  rw [utf8Lossy.eq_def]
  dsimp only
  have h : ¬ b < 0x80 := by omega
  simp [h, hb.1, hb.2, h1]

lemma utf8Lossy_two_bad (b c1 : Nat) (r1 : List Nat)
    (hb : 0xC2 ≤ b ∧ b ≤ 0xDF) (h1 : isCont c1 = false) :
    utf8Lossy (b :: c1 :: r1) = fffd ++ utf8Lossy (c1 :: r1) := by
  rw [utf8Lossy.eq_def]
  dsimp only
  have h : ¬ b < 0x80 := by omega
  simp [h, hb.1, hb.2, h1]

lemma utf8Lossy_three_bad1 (b c1 : Nat) (r1 : List Nat)
    (hb : 0xE0 ≤ b ∧ b ≤ 0xEF) (h1 : ¬ (cont1Lo b ≤ c1 ∧ c1 ≤ cont1Hi b)) :
    utf8Lossy (b :: c1 :: r1) = fffd ++ utf8Lossy (c1 :: r1) := by
  rw [utf8Lossy.eq_def]
  dsimp only
  have h : ¬ b < 0x80 := by omega
  have h2 : ¬ (0xC2 ≤ b ∧ b ≤ 0xDF) := by omega
  simp only [h, if_false, decide_eq_true_eq, Bool.and_eq_true]
  rw [if_neg (by omega), if_pos (by omega)]
  rw [if_neg (by simpa using h1)]

lemma utf8Lossy_three_trunc (b c1 : Nat)
    (hb : 0xE0 ≤ b ∧ b ≤ 0xEF) (h1 : cont1Lo b ≤ c1 ∧ c1 ≤ cont1Hi b) :
    utf8Lossy [b, c1] = fffd := by
  rw [utf8Lossy.eq_def]
  dsimp only
  simp only [decide_eq_true_eq, Bool.and_eq_true]
  rw [if_neg (by omega), if_neg (by omega), if_pos (by omega)]
  rw [if_pos (by simpa using h1)]

lemma utf8Lossy_three_valid (b c1 c2 : Nat) (r2 : List Nat)
    (hb : 0xE0 ≤ b ∧ b ≤ 0xEF) (h1 : cont1Lo b ≤ c1 ∧ c1 ≤ cont1Hi b)
    (h2 : isCont c2 = true) :
    utf8Lossy (b :: c1 :: c2 :: r2) = b :: c1 :: c2 :: utf8Lossy r2 := by
  rw [utf8Lossy.eq_def]
  dsimp only
  simp only [decide_eq_true_eq, Bool.and_eq_true]
  rw [if_neg (by omega), if_neg (by omega), if_pos (by omega)]
  rw [if_pos (by simpa using h1), if_pos h2]

lemma utf8Lossy_three_bad2 (b c1 c2 : Nat) (r2 : List Nat)
    (hb : 0xE0 ≤ b ∧ b ≤ 0xEF) (h1 : cont1Lo b ≤ c1 ∧ c1 ≤ cont1Hi b)
    (h2 : isCont c2 = false) :
    utf8Lossy (b :: c1 :: c2 :: r2) = fffd ++ utf8Lossy (c2 :: r2) := by
  rw [utf8Lossy.eq_def]
  dsimp only
  simp only [decide_eq_true_eq, Bool.and_eq_true]
  rw [if_neg (by omega), if_neg (by omega), if_pos (by omega)]
  rw [if_pos (by simpa using h1), if_neg (by simp [h2])]

lemma utf8Lossy_four_bad1 (b c1 : Nat) (r1 : List Nat)
    (hb : 0xF0 ≤ b ∧ b ≤ 0xF4) (h1 : ¬ (cont1Lo b ≤ c1 ∧ c1 ≤ cont1Hi b)) :
    utf8Lossy (b :: c1 :: r1) = fffd ++ utf8Lossy (c1 :: r1) := by
  rw [utf8Lossy.eq_def]
  dsimp only
  simp only [decide_eq_true_eq, Bool.and_eq_true]
  rw [if_neg (by omega), if_neg (by omega), if_neg (by omega), if_pos (by omega)]
  rw [if_neg (by simpa using h1)]

lemma utf8Lossy_four_trunc1 (b c1 : Nat)
    (hb : 0xF0 ≤ b ∧ b ≤ 0xF4) (h1 : cont1Lo b ≤ c1 ∧ c1 ≤ cont1Hi b) :
    utf8Lossy [b, c1] = fffd := by
  rw [utf8Lossy.eq_def]
  dsimp only
  simp only [decide_eq_true_eq, Bool.and_eq_true]
  rw [if_neg (by omega), if_neg (by omega), if_neg (by omega), if_pos (by omega)]
  rw [if_pos (by simpa using h1)]

lemma utf8Lossy_four_bad2 (b c1 c2 : Nat) (r2 : List Nat)
    (hb : 0xF0 ≤ b ∧ b ≤ 0xF4) (h1 : cont1Lo b ≤ c1 ∧ c1 ≤ cont1Hi b)
    (h2 : isCont c2 = false) :
    utf8Lossy (b :: c1 :: c2 :: r2) = fffd ++ utf8Lossy (c2 :: r2) := by
  rw [utf8Lossy.eq_def]
  dsimp only
  simp only [decide_eq_true_eq, Bool.and_eq_true]
  rw [if_neg (by omega), if_neg (by omega), if_neg (by omega), if_pos (by omega)]
  rw [if_pos (by simpa using h1), if_neg (by simp [h2])]

lemma utf8Lossy_four_trunc2 (b c1 c2 : Nat)
    (hb : 0xF0 ≤ b ∧ b ≤ 0xF4) (h1 : cont1Lo b ≤ c1 ∧ c1 ≤ cont1Hi b)
    (h2 : isCont c2 = true) :
    utf8Lossy [b, c1, c2] = fffd := by
  rw [utf8Lossy.eq_def]
  dsimp only
  simp only [decide_eq_true_eq, Bool.and_eq_true]
  rw [if_neg (by omega), if_neg (by omega), if_neg (by omega), if_pos (by omega)]
  rw [if_pos (by simpa using h1), if_pos h2]

lemma utf8Lossy_four_valid (b c1 c2 c3 : Nat) (r3 : List Nat)
    (hb : 0xF0 ≤ b ∧ b ≤ 0xF4) (h1 : cont1Lo b ≤ c1 ∧ c1 ≤ cont1Hi b)
    (h2 : isCont c2 = true) (h3 : isCont c3 = true) :
    utf8Lossy (b :: c1 :: c2 :: c3 :: r3) = b :: c1 :: c2 :: c3 :: utf8Lossy r3 := by
  rw [utf8Lossy.eq_def]
  dsimp only
  simp only [decide_eq_true_eq, Bool.and_eq_true]
  rw [if_neg (by omega), if_neg (by omega), if_neg (by omega), if_pos (by omega)]
  rw [if_pos (by simpa using h1), if_pos h2, if_pos h3]

lemma utf8Lossy_four_bad3 (b c1 c2 c3 : Nat) (r3 : List Nat)
    (hb : 0xF0 ≤ b ∧ b ≤ 0xF4) (h1 : cont1Lo b ≤ c1 ∧ c1 ≤ cont1Hi b)
    (h2 : isCont c2 = true) (h3 : isCont c3 = false) :
    utf8Lossy (b :: c1 :: c2 :: c3 :: r3) = fffd ++ utf8Lossy (c3 :: r3) := by
  rw [utf8Lossy.eq_def]
  dsimp only
  simp only [decide_eq_true_eq, Bool.and_eq_true]
  rw [if_neg (by omega), if_neg (by omega), if_neg (by omega), if_pos (by omega)]
  rw [if_pos (by simpa using h1), if_pos h2, if_neg (by simp [h3])]

lemma utf8Lossy_lead_bad (b : Nat) (r : List Nat) (hb : 0x80 ≤ b)
    (h1 : ¬ (0xC2 ≤ b ∧ b ≤ 0xDF)) (h2 : ¬ (0xE0 ≤ b ∧ b ≤ 0xEF))
    (h3 : ¬ (0xF0 ≤ b ∧ b ≤ 0xF4)) :
    utf8Lossy (b :: r) = fffd ++ utf8Lossy r := by
  rw [utf8Lossy.eq_def]
  dsimp only
  simp only [decide_eq_true_eq, Bool.and_eq_true]
  rw [if_neg (by omega), if_neg (by omega), if_neg (by omega), if_neg (by omega)]

lemma cont1Lo_ge (b : Nat) : 0x80 ≤ cont1Lo b := by
  unfold cont1Lo
  split_ifs <;> omega

/-- Appending an ASCII byte to any byte sequence appends the same byte to
its lossy decoding: the trailing ASCII byte can neither join an earlier
sequence nor change how the earlier bytes are consumed. -/
lemma utf8Lossy_append_ascii (c : Nat) (hc : c < 0x80) :
    ∀ l : List Nat, utf8Lossy (l ++ [c]) = utf8Lossy l ++ [c] := by
  have hcont : isCont c = false := by simp [isCont]; omega
  suffices H : ∀ n, ∀ l : List Nat, l.length ≤ n →
      utf8Lossy (l ++ [c]) = utf8Lossy l ++ [c] by
    exact fun l => H l.length l le_rfl
  intro n
  induction n with
  | zero =>
    intro l hl
    have : l = [] := List.eq_nil_of_length_eq_zero (by omega)
    subst this
    simp [utf8Lossy_nil, utf8Lossy_cons_lo c [] hc]
  | succ n ih =>
  intro l hl
  rcases l with _ | ⟨b, r⟩
  · simp [utf8Lossy_nil, utf8Lossy_cons_lo c [] hc]
  · by_cases hb : b < 0x80
    · rw [List.cons_append, utf8Lossy_cons_lo b _ hb, utf8Lossy_cons_lo b r hb,
        ih r (by simp at hl ⊢; omega), List.cons_append]
    · by_cases hb2 : 0xC2 ≤ b ∧ b ≤ 0xDF
      · rcases r with _ | ⟨c1, r1⟩
        · rw [show ([b] ++ [c] : List Nat) = b :: c :: [] from rfl,
            utf8Lossy_two_bad b c [] hb2 hcont, utf8Lossy_one_hi b (by omega),
            utf8Lossy_cons_lo c [] hc, utf8Lossy_nil]
        · by_cases h1 : isCont c1 = true
          · rw [List.cons_append, List.cons_append,
              utf8Lossy_two_valid b c1 _ hb2 h1, utf8Lossy_two_valid b c1 r1 hb2 h1,
              ih r1 (by simp at hl ⊢; omega)]
            simp
          · replace h1 : isCont c1 = false := by simpa using h1
            rw [List.cons_append, List.cons_append,
              utf8Lossy_two_bad b c1 _ hb2 h1, utf8Lossy_two_bad b c1 r1 hb2 h1,
              ← List.cons_append, ih (c1 :: r1) (by simp at hl ⊢; omega)]
            simp
      · by_cases hb3 : 0xE0 ≤ b ∧ b ≤ 0xEF
        · rcases r with _ | ⟨c1, r1⟩
          · have hbad : ¬ (cont1Lo b ≤ c ∧ c ≤ cont1Hi b) := by
              have := cont1Lo_ge b; omega
            rw [show ([b] ++ [c] : List Nat) = b :: c :: [] from rfl,
              utf8Lossy_three_bad1 b c [] hb3 hbad, utf8Lossy_one_hi b (by omega),
              utf8Lossy_cons_lo c [] hc, utf8Lossy_nil]
          · by_cases h1 : cont1Lo b ≤ c1 ∧ c1 ≤ cont1Hi b
            · rcases r1 with _ | ⟨c2, r2⟩
              · rw [show ((b :: [c1]) ++ [c] : List Nat) = b :: c1 :: c :: [] from rfl,
                  utf8Lossy_three_bad2 b c1 c [] hb3 h1 hcont,
                  utf8Lossy_three_trunc b c1 hb3 h1,
                  utf8Lossy_cons_lo c [] hc, utf8Lossy_nil]
              · by_cases h2 : isCont c2 = true
                · rw [show ((b :: c1 :: c2 :: r2) ++ [c] : List Nat) =
                      b :: c1 :: c2 :: (r2 ++ [c]) from rfl,
                    utf8Lossy_three_valid b c1 c2 _ hb3 h1 h2,
                    utf8Lossy_three_valid b c1 c2 r2 hb3 h1 h2,
                    ih r2 (by simp at hl ⊢; omega)]
                  simp
                · replace h2 : isCont c2 = false := by simpa using h2
                  rw [show ((b :: c1 :: c2 :: r2) ++ [c] : List Nat) =
                      b :: c1 :: ((c2 :: r2) ++ [c]) from rfl]
                  rw [show (b :: c1 :: ((c2 :: r2) ++ [c]) : List Nat) =
                      b :: c1 :: c2 :: (r2 ++ [c]) from rfl,
                    utf8Lossy_three_bad2 b c1 c2 _ hb3 h1 h2,
                    utf8Lossy_three_bad2 b c1 c2 r2 hb3 h1 h2,
                    ← List.cons_append, ih (c2 :: r2) (by simp at hl ⊢; omega)]
                  simp
            · rw [show ((b :: c1 :: r1) ++ [c] : List Nat) =
                  b :: ((c1 :: r1) ++ [c]) from rfl,
                show (b :: ((c1 :: r1) ++ [c]) : List Nat) =
                  b :: c1 :: (r1 ++ [c]) from rfl,
                utf8Lossy_three_bad1 b c1 _ hb3 h1,
                utf8Lossy_three_bad1 b c1 r1 hb3 h1,
                ← List.cons_append, ih (c1 :: r1) (by simp at hl ⊢; omega)]
              simp
        · by_cases hb4 : 0xF0 ≤ b ∧ b ≤ 0xF4
          · rcases r with _ | ⟨c1, r1⟩
            · have hbad : ¬ (cont1Lo b ≤ c ∧ c ≤ cont1Hi b) := by
                have := cont1Lo_ge b; omega
              rw [show ([b] ++ [c] : List Nat) = b :: c :: [] from rfl,
                utf8Lossy_four_bad1 b c [] hb4 hbad, utf8Lossy_one_hi b (by omega),
                utf8Lossy_cons_lo c [] hc, utf8Lossy_nil]
            · by_cases h1 : cont1Lo b ≤ c1 ∧ c1 ≤ cont1Hi b
              · rcases r1 with _ | ⟨c2, r2⟩
                · rw [show ((b :: [c1]) ++ [c] : List Nat) = b :: c1 :: c :: [] from rfl,
                    utf8Lossy_four_bad2 b c1 c [] hb4 h1 hcont,
                    utf8Lossy_four_trunc1 b c1 hb4 h1,
                    utf8Lossy_cons_lo c [] hc, utf8Lossy_nil]
                · by_cases h2 : isCont c2 = true
                  · rcases r2 with _ | ⟨c3, r3⟩
                    · rw [show ((b :: c1 :: [c2]) ++ [c] : List Nat) =
                          b :: c1 :: c2 :: c :: [] from rfl,
                        utf8Lossy_four_bad3 b c1 c2 c [] hb4 h1 h2 hcont,
                        utf8Lossy_four_trunc2 b c1 c2 hb4 h1 h2,
                        utf8Lossy_cons_lo c [] hc, utf8Lossy_nil]
                    · by_cases h3 : isCont c3 = true
                      · rw [show ((b :: c1 :: c2 :: c3 :: r3) ++ [c] : List Nat) =
                            b :: c1 :: c2 :: c3 :: (r3 ++ [c]) from rfl,
                          utf8Lossy_four_valid b c1 c2 c3 _ hb4 h1 h2 h3,
                          utf8Lossy_four_valid b c1 c2 c3 r3 hb4 h1 h2 h3,
                          ih r3 (by simp at hl ⊢; omega)]
                        simp
                      · replace h3 : isCont c3 = false := by simpa using h3
                        rw [show ((b :: c1 :: c2 :: c3 :: r3) ++ [c] : List Nat) =
                            b :: c1 :: c2 :: c3 :: (r3 ++ [c]) from rfl,
                          utf8Lossy_four_bad3 b c1 c2 c3 _ hb4 h1 h2 h3,
                          utf8Lossy_four_bad3 b c1 c2 c3 r3 hb4 h1 h2 h3,
                          ← List.cons_append,
                          ih (c3 :: r3) (by simp at hl ⊢; omega)]
                        simp
                  · replace h2 : isCont c2 = false := by simpa using h2
                    rw [show ((b :: c1 :: c2 :: r2) ++ [c] : List Nat) =
                        b :: c1 :: c2 :: (r2 ++ [c]) from rfl,
                      utf8Lossy_four_bad2 b c1 c2 _ hb4 h1 h2,
                      utf8Lossy_four_bad2 b c1 c2 r2 hb4 h1 h2,
                      ← List.cons_append, ih (c2 :: r2) (by simp at hl ⊢; omega)]
                    simp
              · rw [show ((b :: c1 :: r1) ++ [c] : List Nat) =
                    b :: c1 :: (r1 ++ [c]) from rfl,
                  utf8Lossy_four_bad1 b c1 _ hb4 h1,
                  utf8Lossy_four_bad1 b c1 r1 hb4 h1,
                  ← List.cons_append, ih (c1 :: r1) (by simp at hl ⊢; omega)]
                simp
          · rw [List.cons_append, utf8Lossy_lead_bad b _ (by omega) hb2 hb3 hb4,
              utf8Lossy_lead_bad b r (by omega) hb2 hb3 hb4,
              ih r (by simp at hl ⊢; omega)]
            simp

/-- Lossy decoding is the identity on ASCII byte sequences. -/
lemma utf8Lossy_ascii_id : ∀ l : List Nat, (∀ c ∈ l, c < 0x80) → utf8Lossy l = l
  | [], _ => utf8Lossy_nil
  | b :: r, h => by
    rw [utf8Lossy_cons_lo b r (h b (by simp)),
      utf8Lossy_ascii_id r (fun c hc => h c (by simp [hc]))]

/-- Lossy decoding commutes with an ASCII prefix. -/
lemma utf8Lossy_ascii_append_left :
    ∀ p l : List Nat, (∀ c ∈ p, c < 0x80) →
      utf8Lossy (p ++ l) = p ++ utf8Lossy l
  | [], l, _ => by simp
  | b :: p, l, h => by
    rw [List.cons_append, utf8Lossy_cons_lo b _ (h b (by simp)),
      utf8Lossy_ascii_append_left p l (fun c hc => h c (by simp [hc]))]
    simp

/-- An ASCII prefix of the lossy decoding is a prefix of the input. -/
lemma utf8Lossy_ascii_extract :
    ∀ p l : List Nat, (∀ c ∈ p, c < 0x80) → p <+: utf8Lossy l →
      ∃ m, l = p ++ m ∧ utf8Lossy l = p ++ utf8Lossy m
  | [], l, _, _ => ⟨l, rfl, rfl⟩
  | b :: p, l, h, hp => by
    obtain ⟨t, ht⟩ := hp
    rw [List.cons_append] at ht
    obtain ⟨r, hr, hrt⟩ := utf8Lossy_ascii_cons_inv ht.symm (h b (by simp))
    have hp2 : p <+: utf8Lossy r := ⟨t, hrt⟩
    obtain ⟨m, hm, hlm⟩ :=
      utf8Lossy_ascii_extract p r (fun c hc => h c (by simp [hc])) hp2
    exact ⟨m, by rw [hr, hm, List.cons_append],
      by rw [hr, utf8Lossy_cons_lo b r (h b (by simp)), hlm, List.cons_append]⟩

/-- A list whose optional last element is `a` splits off `[a]`. -/
lemma last_decomp : ∀ {l : List Nat} {a : Nat}, l.getLast? = some a →
    ∃ m, l = m ++ [a]
  | [], _, h => by simp at h
  | [a], x, h => by
    have ha : a = x := by simpa using h
    exact ⟨[], by rw [ha]; rfl⟩
  | a :: b :: r, x, h => by
    obtain ⟨m, hm⟩ := last_decomp (l := b :: r) (by simpa using h)
    exact ⟨a :: m, by rw [List.cons_append, ← hm]⟩

/-- If the input ends with byte 62 (the `>` of the hex wrapper) then so
does its lossy decoding. -/
lemma utf8Lossy_last_62 (l : List Nat) (h : l.getLast? = some 62) :
    (utf8Lossy l).getLast? = some 62 := by
  obtain ⟨m, hm⟩ := last_decomp h
  subst hm
  rw [utf8Lossy_append_ascii 62 (by norm_num) m]
  simp

lemma utf8Chars_cons_lo (b : Nat) (r : List Nat) (hb : b < 0x80) :
    utf8Chars (b :: r) = b :: utf8Chars r := by
  rw [utf8Chars.eq_def]
  simp [hb]

/-- The chars of an ASCII string are its bytes. -/
lemma utf8Chars_ascii_id : ∀ l : List Nat, (∀ c ∈ l, c < 0x80) → utf8Chars l = l
  | [], _ => by rw [utf8Chars.eq_def]
  | b :: r, h => by
    rw [utf8Chars_cons_lo b r (h b (by simp)),
      utf8Chars_ascii_id r (fun c hc => h c (by simp [hc]))]

/-! ### Guard evaluation helpers -/

lemma tagB_eq : tagB = [85, 84, 70, 49, 54, 66, 69, 58] := by decide

lemma beAttempt_of_head {vb : List Nat} {c : Nat}
    (h : vb.get? 0 = some c) (hc : c ≠ 0xFE) : beAttempt vb = none := by
  unfold beAttempt
  rw [if_neg]
  rintro ⟨-, h0, -⟩
  rw [h] at h0
  simp at h0
  omega

lemma leAttempt_of_head {vb : List Nat} {c : Nat}
    (h : vb.get? 0 = some c) (hc : c ≠ 0xFF) : leAttempt vb = none := by
  unfold leAttempt
  rw [if_neg]
  rintro ⟨-, h0, -⟩
  rw [h] at h0
  simp at h0
  omega

lemma isBoundary_of_get {s : List Nat} {i b : Nat}
    (h : s.get? i = some b) (hb : b < 0x80 ∨ 0xC2 ≤ b) :
    isBoundary s i = true := by
  unfold isBoundary
  split_ifs with h1
  · rfl
  · rw [h]
    simp [isCont]
    omega

lemma isBoundary_end (s : List Nat) (i : Nat) (h : i = s.length) :
    isBoundary s i = true := by
  unfold isBoundary
  rw [if_pos (Or.inr h)]

/-- The byte at the pre-last position is the last byte. -/
lemma get?_pred_of_getLast {s : List Nat} {a : Nat} (h : s.getLast? = some a) :
    s.get? (s.length - 1) = some a := by
  obtain ⟨m, hm⟩ := last_decomp h
  subst hm
  have : (m ++ [a]).length - 1 = m.length := by simp
  rw [this, List.get?_append_right le_rfl]
  simp

/-- Definitional view of the string case of `info_value_to_string`. -/
lemma ivts_eval (vb : List Nat) (fmt : StringFormat) :
    info_value_to_string (.string vb fmt) =
      match tryTag (utf8Lossy vb) with
      | some r => r
      | none =>
        match tryHexStr (utf8Lossy vb) with
        | some r => r
        | none =>
          match tryHexRaw vb with
          | some r => some r
          | none =>
            match beAttempt vb with
            | some r => some r
            | none =>
              match leAttempt vb with
              | some r => some r
              | none => some (utf8Lossy vb) := rfl

/-- The code decode chain of `info_value_to_string` computes exactly the
specification decode chain (claim C2): although the source checks the
stages in a different order (tag, hex, BOMs), the stage guards are
mutually exclusive, so the result agrees with the BOM-first priority
order of the spec. -/
lemma decode_eq_specChain (vb : List Nat) (fmt : StringFormat) :
    info_value_to_string (.string vb fmt) = some (specDecodeChain vb) := by
  by_cases htag : tagB <+: utf8Lossy vb
  · -- tagged-base64 guard holds: nothing else can match
    obtain ⟨m, hm, hsm⟩ := utf8Lossy_ascii_extract tagB vb (by decide) htag
    have hheadq : (utf8Lossy vb).head? = some 85 := by
      rw [hsm, tagB_eq]; rfl
    have hlen : 8 ≤ (utf8Lossy vb).length := by
      rw [hsm, tagB_eq]; simp
    have hb8 : isBoundary (utf8Lossy vb) 8 = true := by
      rcases hx : utf8Lossy m with _ | ⟨h0, t0⟩
      · exact isBoundary_end _ _ (by rw [hsm, hx, tagB_eq]; simp)
      · refine isBoundary_of_get (b := h0) ?_ ?_
        · rw [hsm, tagB_eq, hx]
          rfl
        · exact utf8Lossy_head_notCont (l := m) (by rw [hx]; rfl)
    have hslice : strSliceFrom? (utf8Lossy vb) 8 = some ((utf8Lossy vb).drop 8) := by
      unfold strSliceFrom?
      rw [if_pos ⟨hlen, hb8⟩]
    have hbe : beAttempt vb = none :=
      beAttempt_of_head (c := 85) (by rw [hm, tagB_eq]; rfl) (by norm_num)
    have hle : leAttempt vb = none :=
      leAttempt_of_head (c := 85) (by rw [hm, tagB_eq]; rfl) (by norm_num)
    have hg1 : ¬ ((utf8Lossy vb).head? = some 60 ∧ (utf8Lossy vb).getLast? = some 62) := by
      rintro ⟨h60, -⟩
      rw [hheadq] at h60
      simp at h60
    have htry : tryTag (utf8Lossy vb) =
        some (some (match base64ToBytes (utf8Chars ((utf8Lossy vb).drop 8)) with
          | some db => decode_pdf_string db
          | none => utf8Lossy vb)) := by
      unfold tryTag
      rw [if_pos htag, hslice]
      dsimp only
      cases base64ToBytes (utf8Chars ((utf8Lossy vb).drop 8)) <;> rfl
    have hspec : specDecodeChain vb =
        (match base64ToBytes (utf8Chars ((utf8Lossy vb).drop 8)) with
          | some db => decode_pdf_string db
          | none => utf8Lossy vb) := by
      simp only [specDecodeChain]
      rw [hbe, hle, if_neg hg1, if_pos htag]
    rw [ivts_eval, htry, hspec]
  · have htryTag : tryTag (utf8Lossy vb) = none := by
      unfold tryTag
      rw [if_neg htag]
    by_cases hg1 : (utf8Lossy vb).head? = some 60 ∧ (utf8Lossy vb).getLast? = some 62
    · obtain ⟨h60, h62⟩ := hg1
      obtain ⟨t, hst⟩ : ∃ t, utf8Lossy vb = 60 :: t := by
        rcases hx : utf8Lossy vb with _ | ⟨a, t⟩
        · rw [hx] at h60; simp at h60
        · rw [hx] at h60
          simp at h60
          exact ⟨t, by rw [h60]⟩
      obtain ⟨r, hr, hrt⟩ := utf8Lossy_ascii_cons_inv hst (by norm_num)
      have hbe : beAttempt vb = none :=
        beAttempt_of_head (c := 60) (by rw [hr]; rfl) (by norm_num)
      have hle : leAttempt vb = none :=
        leAttempt_of_head (c := 60) (by rw [hr]; rfl) (by norm_num)
      have hlen2 : 2 ≤ (utf8Lossy vb).length := by
        rcases t with _ | ⟨x, t2⟩
        · rw [hst] at h62
          simp at h62
        · rw [hst]
          simp
      have hb1 : isBoundary (utf8Lossy vb) 1 = true := by
        rcases hx : utf8Lossy r with _ | ⟨h0, t0⟩
        · exfalso
          rw [hst, hrt, hx] at hlen2
          simp at hlen2
        · refine isBoundary_of_get (b := h0) ?_ ?_
          · rw [hst, hrt, hx]
            rfl
          · exact utf8Lossy_head_notCont (l := r) (by rw [hx]; rfl)
      have hbL : isBoundary (utf8Lossy vb) ((utf8Lossy vb).length - 1) = true :=
        isBoundary_of_get (get?_pred_of_getLast h62) (by norm_num)
      have hslice : strSliceRange? (utf8Lossy vb) 1 ((utf8Lossy vb).length - 1) =
          some (((utf8Lossy vb).drop 1).take ((utf8Lossy vb).length - 2)) := by
        unfold strSliceRange?
        rw [if_pos ⟨by omega, by omega, hb1, hbL⟩, Nat.sub_sub]
      have htryHexStr : tryHexStr (utf8Lossy vb) =
          (match hexToBytes (((utf8Lossy vb).drop 1).take ((utf8Lossy vb).length - 2)) with
            | some hb => some (some (decode_pdf_string hb))
            | none => none) := by
        unfold tryHexStr
        rw [if_pos ⟨h60, h62⟩, hslice]
      cases hhx : hexToBytes (((utf8Lossy vb).drop 1).take ((utf8Lossy vb).length - 2)) with
      | some hb =>
        have hspec : specDecodeChain vb = decode_pdf_string hb := by
          simp only [specDecodeChain]
          rw [hbe, hle, if_pos ⟨h60, h62⟩, hhx]
        rw [ivts_eval, htryTag, htryHexStr, hhx, hspec]
      | none =>
        have htryRaw : tryHexRaw vb = none := by
          unfold tryHexRaw
          by_cases hg2 : 4 < vb.length ∧ vb.head? = some 60 ∧ vb.getLast? = some 62
          · rw [if_pos hg2]
            obtain ⟨hlen4, -, hlast⟩ := hg2
            have hrne : r ≠ [] := by
              rintro rfl
              rw [hr] at hlen4
              simp at hlen4
            have hrlast : r.getLast? = some 62 := by
              rcases r with _ | ⟨x, xs⟩
              · exact absurd rfl hrne
              · rw [hr] at hlast
                rwa [List.getLast?_cons_cons] at hlast
            obtain ⟨mid, hmid⟩ := last_decomp hrlast
            have hc : (vb.drop 1).take (vb.length - 2) = mid := by
              rw [hr, hmid]
              simp
            have hinner2 :
                ((utf8Lossy vb).drop 1).take ((utf8Lossy vb).length - 2) =
                  utf8Lossy mid := by
              rw [hst, hrt, hmid, utf8Lossy_append_ascii 62 (by norm_num) mid]
              simp
            rw [hc, ← hinner2, hhx]
          · rw [if_neg hg2]
        have hspec : specDecodeChain vb = utf8Lossy vb := by
          simp only [specDecodeChain]
          rw [hbe, hle, if_pos ⟨h60, h62⟩, hhx, if_neg htag]
        rw [ivts_eval, htryTag, htryHexStr, hhx, htryRaw, hbe, hle, hspec]
    · have htryHexStr : tryHexStr (utf8Lossy vb) = none := by
        unfold tryHexStr
        rw [if_neg hg1]
      have htryRaw : tryHexRaw vb = none := by
        unfold tryHexRaw
        rw [if_neg]
        rintro ⟨hlen4, hh, hl⟩
        apply hg1
        refine ⟨?_, utf8Lossy_last_62 vb hl⟩
        rcases vb with _ | ⟨b, r0⟩
        · simp at hh
        · simp at hh
          subst hh
          rw [utf8Lossy_cons_lo 60 r0 (by norm_num)]
          rfl
      rw [ivts_eval, htryTag, htryHexStr, htryRaw]
      cases hbe2 : beAttempt vb with
      | some rr =>
        have hspec : specDecodeChain vb = rr := by
          simp only [specDecodeChain]
          rw [hbe2]
        rw [hspec]
      | none =>
        cases hle2 : leAttempt vb with
        | some rr =>
          have hspec : specDecodeChain vb = rr := by
            simp only [specDecodeChain]
            rw [hbe2, hle2]
          rw [hspec]
        | none =>
          have hspec : specDecodeChain vb = utf8Lossy vb := by
            simp only [specDecodeChain]
            rw [hbe2, hle2, if_neg hg1, if_neg htag]
          rw [hspec]

/-! ### Totality of the decoder -/

/-- The value conversion never panics: every object maps to some string. -/
lemma ivts_isSome : ∀ o : Obj, (info_value_to_string o).isSome
  | .string vb fmt => by rw [decode_eq_specChain vb fmt]; rfl
  | .name _ => rfl
  | .integer _ => rfl
  | .real _ => rfl
  | .boolean _ => rfl
  | .null => rfl
  | .array _ => rfl
  | .dictionary _ => rfl
  | .stream => rfl
  | .reference _ => rfl

lemma posIn_isSome : ∀ {l : List Nat} {c : Nat}, c ∈ l → (posIn l c).isSome
  | x :: r, c, h => by
    unfold posIn
    split_ifs with hx
    · rfl
    · rcases List.mem_cons.mp h with h1 | h1
      · exact absurd h1.symm hx
      · have := posIn_isSome h1
        cases hp : posIn r c
        · rw [hp] at this; simp at this
        · simp [hp]

/-- Every character passing the filter of `base64_to_bytes` has a position
in the alphabet or is `=`, so the inner loop never errors. -/
lemma b64Values_isSome : ∀ chunk : List Nat,
    (∀ c ∈ chunk, c ∈ b64Alphabet ∨ c = 61) → (b64Values chunk).isSome
  | [], _ => rfl
  | c :: r, h => by
    unfold b64Values
    split_ifs with hc
    · rfl
    · rcases h c (by simp) with h1 | h1
      · have hp := posIn_isSome (l := b64Alphabet) h1
        cases hpos : b64Pos c
        · exfalso
          have hx : posIn b64Alphabet c = none := hpos
          rw [hx] at hp
          simp at hp
        · have := b64Values_isSome r (fun x hx => h x (by simp [hx]))
          cases hv : b64Values r
          · rw [hv] at this; simp at this
          · simp [hpos, hv]
      · exact absurd h1 hc

lemma b64Chunk_isSome (chunk : List Nat)
    (h : ∀ c ∈ chunk, c ∈ b64Alphabet ∨ c = 61) : (b64Chunk chunk).isSome := by
  unfold b64Chunk
  have := b64Values_isSome chunk h
  cases hv : b64Values chunk
  · rw [hv] at this; simp at this
  · simp [hv]

lemma b64Chunks_isSome : ∀ l : List Nat,
    (∀ c ∈ l, c ∈ b64Alphabet ∨ c = 61) → (b64Chunks l).isSome
  | [], _ => rfl
  | [_], _ => rfl
  | [c1, c2], h => by
    unfold b64Chunks
    exact b64Chunk_isSome _ h
  | [c1, c2, c3], h => by
    unfold b64Chunks
    exact b64Chunk_isSome _ h
  | c1 :: c2 :: c3 :: c4 :: r, h => by
    unfold b64Chunks
    have hchunk := b64Chunk_isSome [c1, c2, c3, c4] (by
      intro c hc
      apply h
      simp only [List.mem_cons, List.not_mem_nil, or_false] at hc
      rcases hc with rfl | rfl | rfl | rfl <;> simp)
    cases hck : b64Chunk [c1, c2, c3, c4] with
    | none => rw [hck] at hchunk; simp at hchunk
    | some bs =>
      have hrest := b64Chunks_isSome r (fun c hc => h c (by simp [hc]))
      cases hcks : b64Chunks r with
      | none => rw [hcks] at hrest; simp at hrest
      | some l2 => simp [hck, hcks]

/-- `base64_to_bytes` never returns the error: the pre-filter removes
every character that the alphabet lookup could fail on. -/
lemma base64ToBytes_isSome (s : List Nat) : ∃ bs, base64ToBytes s = some bs := by
  unfold base64ToBytes
  have h : (b64Chunks (s.filter fun c => b64Alphabet.contains c || c = 61)).isSome := by
    apply b64Chunks_isSome
    intro c hc
    have := List.of_mem_filter hc
    simp at this
    rcases this with h1 | h1
    · exact Or.inl h1
    · exact Or.inr h1
  cases hx : b64Chunks (s.filter fun c => b64Alphabet.contains c || c = 61)
  · rw [hx] at h; simp at h
  · exact ⟨_, rfl⟩

/-- Evaluation of the tag stage: whenever the lossy string starts with
`UTF16BE:`, the base64 decoding succeeds and the result is the
BOM-detected decoding of the decoded bytes (the fallback returning the
string unchanged is unreachable). -/
lemma ivts_tag_case (vb : List Nat) (fmt : StringFormat)
    (htag : tagB <+: utf8Lossy vb) :
    ∃ db, base64ToBytes (utf8Chars ((utf8Lossy vb).drop 8)) = some db ∧
      info_value_to_string (.string vb fmt) = some (decode_pdf_string db) := by
  obtain ⟨m, hm, hsm⟩ := utf8Lossy_ascii_extract tagB vb (by decide) htag
  have hlen : 8 ≤ (utf8Lossy vb).length := by
    rw [hsm, tagB_eq]; simp
  have hb8 : isBoundary (utf8Lossy vb) 8 = true := by
    rcases hx : utf8Lossy m with _ | ⟨h0, t0⟩
    · exact isBoundary_end _ _ (by rw [hsm, hx, tagB_eq]; simp)
    · refine isBoundary_of_get (b := h0) ?_ ?_
      · rw [hsm, tagB_eq, hx]
        rfl
      · exact utf8Lossy_head_notCont (l := m) (by rw [hx]; rfl)
  have hslice : strSliceFrom? (utf8Lossy vb) 8 = some ((utf8Lossy vb).drop 8) := by
    unfold strSliceFrom?
    rw [if_pos ⟨hlen, hb8⟩]
  obtain ⟨db, hdb⟩ := base64ToBytes_isSome (utf8Chars ((utf8Lossy vb).drop 8))
  refine ⟨db, hdb, ?_⟩
  rw [ivts_eval]
  have htry : tryTag (utf8Lossy vb) = some (some (decode_pdf_string db)) := by
    unfold tryTag
    rw [if_pos htag, hslice]
    dsimp only
    rw [hdb]
  rw [htry]

/-! ### Dictionary and object-store lemmas -/

lemma dictGet_dictSet_self : ∀ (d : Dict) (k : List Nat) (v : Obj),
    dictGet (dictSet d k v) k = some v
  | [], k, v => by simp [dictSet, dictGet]
  | kv :: r, k, v => by
    unfold dictSet
    split_ifs with h
    · simp [dictGet]
    · unfold dictGet
      rw [List.find?_cons_of_neg _ (by simpa using h)]
      exact dictGet_dictSet_self r k v

lemma dictSet_mem_self : ∀ (d : Dict) (k : List Nat) (v : Obj),
    (k, v) ∈ dictSet d k v
  | [], k, v => by simp [dictSet]
  | kv :: r, k, v => by
    unfold dictSet
    split_ifs with h
    · simp
    · simp [dictSet_mem_self r k v]

lemma dictSet_mem_of : ∀ (d : Dict) (k : List Nat) (v : Obj)
    (a : List Nat) (b : Obj), (a, b) ∈ d → a ≠ k → (a, b) ∈ dictSet d k v
  | [], _, _, _, _, h, _ => by simp at h
  | kv :: r, k, v, a, b, h, hne => by
    unfold dictSet
    rcases List.mem_cons.mp h with h1 | h1
    · split_ifs with h2
      · rw [← h1] at h2
        exact absurd h2 hne
      · simp [h1]
    · split_ifs with h2
      · simp [h1]
      · simp [dictSet_mem_of r k v a b h1 hne]

lemma objGet_objSet_self : ∀ (os : List (ObjId × Obj)) (id : ObjId) (v : Obj),
    objGet (objSet os id v) id = some v
  | [], id, v => by simp [objSet, objGet]
  | e :: r, id, v => by
    unfold objSet
    split_ifs with h
    · simp [objGet]
    · unfold objGet
      rw [List.find?_cons_of_neg _ (by simpa using h)]
      exact objGet_objSet_self r id v

/-- The trailer of the located/created document resolves `Info` to the
returned object id. -/
lemma locateInfo_resolves (d : Doc) :
    (dictGet (locateInfo d).1.trailer infoKey).bind asReference =
      some (locateInfo d).2 := by
  unfold locateInfo
  cases h : (dictGet d.trailer infoKey).bind asReference with
  | some id => simp [h]
  | none => simp [dictGet_dictSet_self, asReference]

/-- Anatomy of a successful Put: the resulting document resolves `Info`
to a dictionary that is the old one with the key/value entry and then the
`ModDate` stamp written. -/
lemma putMeta_spec {d : Doc} {key value stamp : List Nat} {d2 : Doc}
    (h : putMeta d key value stamp = some d2) :
    ∃ id dict,
      (dictGet d2.trailer infoKey).bind asReference = some id ∧
      objGet d2.objects id = some (.dictionary
        (dictSet (dictSet dict key (.string value .literal))
          modDateKey (.string stamp .literal))) := by
  unfold putMeta at h
  rcases hloc : locateInfo d with ⟨d1, id⟩
  rw [hloc] at h
  dsimp only at h
  rcases hobj : objGet d1.objects id with _ | o
  · rw [hobj] at h
    simp at h
  · rw [hobj] at h
    cases o with
    | dictionary dict =>
      simp only at h
      have hd2 : d2 = { d1 with
          objects := objSet d1.objects id
            (.dictionary (dictSet (dictSet dict key (.string value .literal))
              modDateKey (.string stamp .literal))) } := (Option.some.inj h).symm
      refine ⟨id, dict, ?_, ?_⟩
      · have hres := locateInfo_resolves d
        rw [hloc] at hres
        rw [hd2]
        exact hres
      · rw [hd2]
        exact objGet_objSet_self _ _ _
    | null => simp at h
    | boolean b => simp at h
    | integer i => simp at h
    | real t => simp at h
    | name nb => simp at h
    | string s f => simp at h
    | array es => simp at h
    | stream => simp at h
    | reference rid => simp at h

/-- The entry loop always succeeds and lists every dictionary entry with
its lossy key and converted value. -/
lemma mapEntries_total : ∀ dct : Dict, ∃ l, mapEntries dct = some l ∧
    ∀ kv ∈ dct, ∃ s, info_value_to_string kv.2 = some s ∧ (utf8Lossy kv.1, s) ∈ l
  | [] => ⟨[], rfl, by simp⟩
  | (k, v) :: r => by
    have hs := ivts_isSome v
    rcases hv : info_value_to_string v with _ | s
    · rw [hv] at hs
      simp at hs
    · obtain ⟨l, hl, hmem⟩ := mapEntries_total r
      refine ⟨(utf8Lossy k, s) :: l, by unfold mapEntries; rw [hv, hl], ?_⟩
      intro kv hkv
      rcases List.mem_cons.mp hkv with h1 | h1
      · exact ⟨s, by rw [h1]; exact hv, by rw [h1]; simp⟩
      · obtain ⟨s2, hs2, hm2⟩ := hmem kv h1
        exact ⟨s2, hs2, by simp [hm2]⟩

/-- `listMeta` evaluated on a document whose Info reference resolves to a
dictionary. -/
lemma listMeta_of_dict {d : Doc} {id : ObjId} {dct : Dict}
    (h1 : (dictGet d.trailer infoKey).bind asReference = some id)
    (h2 : objGet d.objects id = some (.dictionary dct)) :
    listMeta d = mapEntries dct := by
  unfold listMeta
  rw [h1]
  dsimp only
  rw [h2]

/-- `listMeta` never fails. -/
lemma listMeta_isSome (d : Doc) : ∃ l, listMeta d = some l := by
  unfold listMeta
  cases hres : (dictGet d.trailer infoKey).bind asReference with
  | none => exact ⟨[], rfl⟩
  | some id =>
    dsimp only
    cases hobj : objGet d.objects id with
    | none => exact ⟨[], rfl⟩
    | some o =>
      dsimp only
      cases o with
      | dictionary dct =>
        obtain ⟨l, hl, -⟩ := mapEntries_total dct
        exact ⟨l, hl⟩
      | null => exact ⟨[], rfl⟩
      | boolean b => exact ⟨[], rfl⟩
      | integer i => exact ⟨[], rfl⟩
      | real t => exact ⟨[], rfl⟩
      | name nb => exact ⟨[], rfl⟩
      | string s f => exact ⟨[], rfl⟩
      | array es => exact ⟨[], rfl⟩
      | stream => exact ⟨[], rfl⟩
      | reference rid => exact ⟨[], rfl⟩

/-! ### Date-stamp lemmas -/

lemma natDecAux_digits : ∀ (fuel n : Nat), ∀ c ∈ natDecAux fuel n,
    48 ≤ c ∧ c ≤ 57
  | 0, n => by simp [natDecAux]
  | fuel + 1, n => by
    intro c hc
    unfold natDecAux at hc
    split_ifs at hc with h
    · simp at hc
      omega
    · rcases List.mem_append.mp hc with h1 | h1
      · exact natDecAux_digits fuel (n / 10) c h1
      · simp at h1
        have := Nat.mod_lt n (show 0 < 10 by omega)
        omega

lemma natDec_digits (n : Nat) : ∀ c ∈ natDec n, 48 ≤ c ∧ c ≤ 57 :=
  natDecAux_digits (n + 1) n

lemma natDecAux_small {fuel n : Nat} (h : n < 10) (hf : 0 < fuel) :
    natDecAux fuel n = [48 + n] := by
  cases fuel with
  | zero => omega
  | succ f =>
    unfold natDecAux
    rw [if_pos h]

lemma natDec_two_digits {n : Nat} (h1 : 10 ≤ n) (h2 : n < 100) :
    natDec n = [48 + n / 10, 48 + n % 10] := by
  unfold natDec natDecAux
  rw [if_neg (by omega)]
  rw [natDecAux_small (by omega) (by omega)]
  rfl

lemma pad2_two_digits {n : Nat} (h : n < 100) :
    (pad2 n).length = 2 ∧ ∀ c ∈ pad2 n, 48 ≤ c ∧ c ≤ 57 := by
  unfold pad2
  split_ifs with h10
  · refine ⟨rfl, ?_⟩
    intro c hc
    simp at hc
    omega
  · rw [natDec_two_digits (by omega) h]
    refine ⟨rfl, ?_⟩
    intro c hc
    simp at hc
    have := Nat.mod_lt n (show 0 < 10 by omega)
    have : n / 10 < 10 := by omega
    omega

/-- Rust truncating division agrees with natural division on the
magnitude. -/
lemma rustDiv_natAbs (a : Int) (b : Nat) : (rustDiv a b).natAbs = a.natAbs / b := by
  unfold rustDiv
  split_ifs with h
  · exact Int.natAbs_ofNat _
  · rw [Int.natAbs_neg]
    exact Int.natAbs_ofNat _

/-! ### Temporary-file-name lemmas -/

lemma lastDotIdx_none : ∀ l : List Nat, lastDotIdx l = none → 46 ∉ l
  | [], _ => by simp
  | c :: r, h => by
    unfold lastDotIdx at h
    cases hr : lastDotIdx r with
    | some j => rw [hr] at h; simp at h
    | none =>
      rw [hr] at h
      split_ifs at h with hc
      simp only [List.mem_cons]
      rintro (h1 | h1)
      · exact hc h1.symm
      · exact lastDotIdx_none r hr h1

lemma lastDotIdx_get : ∀ (l : List Nat) (j : Nat), lastDotIdx l = some j →
    l.get? j = some 46
  | [], j, h => by simp [lastDotIdx] at h
  | c :: r, j, h => by
    unfold lastDotIdx at h
    cases hr : lastDotIdx r with
    | some i =>
      rw [hr] at h
      simp only [Option.some.injEq] at h
      subst h
      simpa using lastDotIdx_get r i hr
    | none =>
      rw [hr] at h
      split_ifs at h with hc
      simp only [Option.some.injEq] at h
      subst h
      simp [hc]

/-- The `.pdf.tmp` temporary name never collides with the target name. -/
lemma tempName_ne (path : List Nat) (ts : Nat) : tempName path ts ≠ path := by
  unfold tempName
  split_ifs with hnil
  · subst hnil
    intro h
    have := congrArg List.length h
    simp [litB] at this
  · cases hld : lastDotIdx path with
    | none =>
      have hstem : fileStem path = path := by
        unfold fileStem
        rw [hld]
      rw [hstem]
      intro h
      apply lastDotIdx_none path hld
      rw [← h]
      have h46 : (46 : Nat) ∈ litB ".pdf.tmp" := by decide
      simp [h46]
    | some p =>
      rcases p with _ | q
      · have hstem : fileStem path = path := by
          unfold fileStem
          rw [hld]
          rfl
        rw [hstem]
        intro h
        have := congrArg List.length h
        simp [litB] at this
      · have hstem : fileStem path = path.take (q + 1) := by
          unfold fileStem
          rw [hld]
          simp
        rw [hstem]
        intro h
        have hget := lastDotIdx_get path (q + 1) hld
        have hlt : q + 1 < path.length := by
          by_contra hge
          rw [List.get?_eq_none.mpr (by omega)] at hget
          simp at hget
        have h95 : (path.take (q + 1) ++ [95] ++ natDec ts ++
            litB ".pdf.tmp").get? (q + 1) = some 95 := by
          rw [List.append_assoc, List.append_assoc,
            List.get?_append_right (by simp [List.length_take])]
          simp [List.length_take, Nat.min_eq_left (le_of_lt hlt)]
        rw [h, hget] at h95
        simp at h95

lemma pad2_digits (n : Nat) : ∀ c ∈ pad2 n, 48 ≤ c ∧ c ≤ 57 := by
  unfold pad2
  split_ifs with h
  · intro c hc
    simp at hc
    omega
  · exact natDec_digits n

/-! ### Fixtures for concrete instantiations -/

/-- A freshly created document: empty trailer, no objects. -/
def docEmpty : Doc := ⟨[], [], 0⟩

/-- The filesystem with no files. -/
def fsEmpty : FS := fun _ => none

/-! ### The claims -/

/-- C2: for every raw byte sequence stored in a string value, the decoder
of `info_value_to_string` returns exactly the result of the
specification's priority chain (BOM forms first, then the hex wrapper on
the decoded text, then the tagged-base64 form, then the UTF-8-lossy
fallback), each stage validating and falling through on failure. -/
theorem claim_C2_decode_priority_order (vb : List Nat) (fmt : StringFormat) :
    info_value_to_string (.string vb fmt) = some (specDecodeChain vb) :=
  decode_eq_specChain vb fmt

/-- C9: Decode is total — `info_value_to_string` returns a string for
every object kind without panicking (all slices are guarded) and without
an error. -/
theorem claim_C9_decode_total (o : Obj) : (info_value_to_string o).isSome :=
  ivts_isSome o

/-- C10: `base64_to_bytes` never returns an error — the filter keeps only
alphabet characters and `=`, so the invalid-character branch is
unreachable — and consequently every `UTF16BE:`-tagged string value is
transformed by decoding (the caller's return-unchanged fallback is never
taken). -/
theorem claim_C10_base64_never_fails :
    (∀ s : List Nat, ∃ bs, base64ToBytes s = some bs) ∧
    (∀ (vb : List Nat) (fmt : StringFormat),
      tagB <+: utf8Lossy vb →
      ∃ db, base64ToBytes (utf8Chars ((utf8Lossy vb).drop 8)) = some db ∧
        info_value_to_string (.string vb fmt) = some (decode_pdf_string db)) :=
  ⟨base64ToBytes_isSome, fun vb fmt h => ivts_tag_case vb fmt h⟩

/-- Witness for C10 at the tagged value `UTF16BE:QQ==`. -/
theorem claim_C10_witness :
    (tagB <+: utf8Lossy (litB "UTF16BE:QQ==")) ∧
    (∃ db, base64ToBytes (utf8Chars ((utf8Lossy (litB "UTF16BE:QQ==")).drop 8)) =
        some db ∧
      info_value_to_string (.string (litB "UTF16BE:QQ==") .literal) =
        some (decode_pdf_string db)) :=
  ⟨by decide, claim_C10_base64_never_fails.2 (litB "UTF16BE:QQ==") .literal
    (by decide)⟩

/-- C3 counterexample: the tagged value `UTF16BE:!!!` (invalid characters
after the tag) decodes to the empty string — not to the tag-prefixed
string unchanged, and not to a non-empty string. -/
theorem claim_C3_counterexample :
    info_value_to_string (.string (litB "UTF16BE:!!!") .literal) = some [] ∧
    ([] : List Nat) ≠ litB "UTF16BE:!!!" := by
  decide

/-- C3 (amended): for a tagged value, base64 decoding of the remainder
always succeeds (the return-unchanged fallback is dead code) and the
decoded bytes are BOM-detected: UTF-16 only when they carry their own
byte-order mark, otherwise UTF-8-lossy; no error is ever raised, but the
result may be empty. -/
theorem claim_C3_tagged_decode (vb : List Nat) (fmt : StringFormat)
    (htag : tagB <+: utf8Lossy vb) :
    ∃ db, base64ToBytes (utf8Chars ((utf8Lossy vb).drop 8)) = some db ∧
      info_value_to_string (.string vb fmt) = some (decode_pdf_string db) ∧
      (beAttempt db = none → leAttempt db = none →
        decode_pdf_string db = utf8Lossy db) := by
  obtain ⟨db, h1, h2⟩ := ivts_tag_case vb fmt htag
  refine ⟨db, h1, h2, fun hb hl => ?_⟩
  unfold decode_pdf_string
  rw [hb, hl]

/-- Witness for the amended C3 at `UTF16BE:AEEAQg==` (base64 of the
BOM-less UTF-16BE bytes of `AB`, which therefore decode as UTF-8-lossy
rather than as UTF-16BE). -/
theorem claim_C3_witness :
    (tagB <+: utf8Lossy (litB "UTF16BE:AEEAQg==")) ∧
    (∃ db, base64ToBytes (utf8Chars ((utf8Lossy (litB "UTF16BE:AEEAQg==")).drop 8)) =
        some db ∧
      info_value_to_string (.string (litB "UTF16BE:AEEAQg==") .literal) =
        some (decode_pdf_string db) ∧
      (beAttempt db = none → leAttempt db = none →
        decode_pdf_string db = utf8Lossy db)) :=
  ⟨by decide, claim_C3_tagged_decode (litB "UTF16BE:AEEAQg==") .literal (by decide)⟩

/-- C4 counterexample: the plain-ASCII text `<41>` round-trips to `A`,
not to itself: the decoder misreads the stored literal bytes as a hex
wrapper. -/
theorem claim_C4_counterexample :
    (∀ c ∈ litB "<41>", c < 0x80) ∧
    info_value_to_string (encodeMeta (litB "<41>")) = some (litB "A") ∧
    litB "A" ≠ litB "<41>" := by
  decide

/-- C4 (amended): decode∘encode is the identity on plain-ASCII text that
does not start with the `UTF16BE:` tag and is not an angle-bracket
wrapper around decodable hex. -/
theorem claim_C4_ascii_roundtrip (v : List Nat)
    (hascii : ∀ c ∈ v, c < 0x80)
    (htag : ¬ tagB <+: v)
    (hhex : v.head? = some 60 ∧ v.getLast? = some 62 →
      hexToBytes ((v.drop 1).take (v.length - 2)) = none) :
    info_value_to_string (encodeMeta v) = some v := by
  have hlossy : utf8Lossy v = v := utf8Lossy_ascii_id v hascii
  have hmain : info_value_to_string (encodeMeta v) = some (specDecodeChain v) :=
    decode_eq_specChain v .literal
  rw [hmain]
  rcases v with _ | ⟨c, r⟩
  · have : specDecodeChain [] = [] := by decide
    rw [this]
  · have hc := hascii c (by simp)
    have hbe : beAttempt (c :: r) = none :=
      beAttempt_of_head (c := c) rfl (by omega)
    have hle : leAttempt (c :: r) = none :=
      leAttempt_of_head (c := c) rfl (by omega)
    have hspec : specDecodeChain (c :: r) = c :: r := by
      simp only [specDecodeChain]
      rw [hbe, hle]
      dsimp only
      rw [hlossy]
      by_cases hg : (c :: r).head? = some 60 ∧ (c :: r).getLast? = some 62
      · rw [if_pos hg, hhex hg]
        dsimp only
        rw [if_neg htag]
      · rw [if_neg hg]
        dsimp only
        rw [if_neg htag]
    rw [hspec]

/-- Witness for the amended C4 at `Jane Doe`. -/
theorem claim_C4_witness :
    (∀ c ∈ litB "Jane Doe", c < 0x80) ∧
    info_value_to_string (encodeMeta (litB "Jane Doe")) = some (litB "Jane Doe") :=
  ⟨by decide, claim_C4_ascii_roundtrip (litB "Jane Doe") (by decide) (by decide)
    (by decide)⟩

/-- C5 counterexample: Put of the value `<41>` under key `A` succeeds,
but the following List reads the value back as `A`, so the collection
does not contain the written pair. -/
theorem claim_C5_counterexample :
    (putMeta docEmpty (litB "A") (litB "<41>") (litB "D:1")).isSome = true ∧
    ((putMeta docEmpty (litB "A") (litB "<41>") (litB "D:1")).bind listMeta) =
      some [(litB "A", litB "A"), (litB "ModDate", litB "D:1")] ∧
    (litB "A", litB "<41>") ∉
      [(litB "A", litB "A"), (litB "ModDate", litB "D:1")] := by
  decide

/-- C5 (amended): a successful Put followed by List yields the written
key with the written value whenever the key decodes losslessly and is not
`ModDate` itself, and the value is one the decoder maps to itself; a
`ModDate` entry is always present. -/
theorem claim_C5_put_then_list (d d2 : Doc) (k v st : List Nat)
    (hput : putMeta d k v st = some d2)
    (hkey : utf8Lossy k = k) (hkne : k ≠ modDateKey)
    (hval : info_value_to_string (encodeMeta v) = some v) :
    ∃ l, listMeta d2 = some l ∧ (k, v) ∈ l ∧ ∃ mv, (modDateKey, mv) ∈ l := by
  obtain ⟨id, dict, hres, hobj⟩ := putMeta_spec hput
  rw [listMeta_of_dict hres hobj]
  obtain ⟨l, hl, hmem⟩ := mapEntries_total
    (dictSet (dictSet dict k (.string v .literal)) modDateKey (.string st .literal))
  refine ⟨l, hl, ?_, ?_⟩
  · have hkv : (k, Obj.string v .literal) ∈
        dictSet (dictSet dict k (.string v .literal)) modDateKey
          (.string st .literal) :=
      dictSet_mem_of _ _ _ _ _ (dictSet_mem_self dict k _) hkne
    obtain ⟨s, hs, hm⟩ := hmem (k, .string v .literal) hkv
    have hsv : s = v := by
      have : info_value_to_string (Obj.string v .literal) = some v := hval
      rw [this] at hs
      exact (Option.some.inj hs).symm
    rw [hkey, hsv] at hm
    exact hm
  · have hmd : (modDateKey, Obj.string st .literal) ∈
        dictSet (dictSet dict k (.string v .literal)) modDateKey
          (.string st .literal) := dictSet_mem_self _ _ _
    obtain ⟨s2, hs2, hm2⟩ := hmem _ hmd
    have hlk : utf8Lossy modDateKey = modDateKey := by decide
    rw [hlk] at hm2
    exact ⟨s2, hm2⟩

/-- The document produced by Put of `Author`/`Jane Doe` on a fresh
document (used by the C5 witness). -/
def docPut : Doc :=
  ⟨[(litB "Info", .reference (1, 0))],
   [((1, 0), .dictionary
      [(litB "Author", .string (litB "Jane Doe") .literal),
       (litB "ModDate", .string (litB "D:1") .literal)])], 1⟩

/-- Witness for the amended C5: Put then List on a fresh document. -/
theorem claim_C5_witness :
    ∃ l, listMeta docPut = some l ∧ (litB "Author", litB "Jane Doe") ∈ l ∧
      ∃ mv, (modDateKey, mv) ∈ l :=
  claim_C5_put_then_list docEmpty docPut (litB "Author") (litB "Jane Doe")
    (litB "D:1") rfl (by decide) (by decide) (by decide)

/-- C6: every successful Put stamps `ModDate` with the injected-clock PDF
date string — even when the written key is `ModDate` itself — and the
stamp has the fixed shape `D:` + date + sign + HH + quote + MM + quote (quote = ASCII 39) with sign taken from the
offset direction, both numeric fields non-negative (they are magnitudes),
the minute field always two digits and the hour field two digits for any
realistic offset. -/
theorem claim_C6_moddate_stamp (d d2 : Doc) (k v dp : List Nat) (off : Int)
    (hput : putMeta d k v (pdfDate dp off) = some d2) :
    (∃ id dict2, (dictGet d2.trailer infoKey).bind asReference = some id ∧
      objGet d2.objects id = some (.dictionary dict2) ∧
      dictGet dict2 modDateKey = some (.string (pdfDate dp off) .literal)) ∧
    pdfDate dp off = litB "D:" ++ dp ++
      [if 0 ≤ off then 43 else 45] ++ pad2 (off.natAbs / 3600) ++ [39] ++
      pad2 (off.natAbs % 3600 / 60) ++ [39] ∧
    (pad2 (off.natAbs % 3600 / 60)).length = 2 ∧
    (∀ c ∈ pad2 (off.natAbs / 3600), 48 ≤ c ∧ c ≤ 57) ∧
    (∀ c ∈ pad2 (off.natAbs % 3600 / 60), 48 ≤ c ∧ c ≤ 57) ∧
    (off.natAbs < 360000 → (pad2 (off.natAbs / 3600)).length = 2) := by
  refine ⟨?_, ?_, ?_, pad2_digits _, pad2_digits _, ?_⟩
  · obtain ⟨id, dict, hres, hobj⟩ := putMeta_spec hput
    exact ⟨id, _, hres, hobj, dictGet_dictSet_self _ _ _⟩
  · simp only [pdfDate, rustDiv_natAbs]
  · exact (pad2_two_digits (by omega)).1
  · intro h
    exact (pad2_two_digits (by omega)).1

/-- The document produced by Put with an injected-clock stamp at offset
-19800 seconds (UTC-5:30), used by the C6 witness. -/
def docStamp : Doc :=
  ⟨[(litB "Info", .reference (1, 0))],
   [((1, 0), .dictionary
      [(litB "X", .string (litB "Y") .literal),
       (litB "ModDate",
        .string (pdfDate (litB "20240101120000") (-19800)) .literal)])], 1⟩

/-- Witness for C6 at a concrete negative offset. -/
theorem claim_C6_witness :
    (∃ id dict2, (dictGet docStamp.trailer infoKey).bind asReference = some id ∧
      objGet docStamp.objects id = some (.dictionary dict2) ∧
      dictGet dict2 modDateKey =
        some (.string (pdfDate (litB "20240101120000") (-19800)) .literal)) ∧
    pdfDate (litB "20240101120000") (-19800) = litB "D:" ++ litB "20240101120000" ++
      [if (0 : Int) ≤ -19800 then 43 else 45] ++
      pad2 ((-19800 : Int).natAbs / 3600) ++ [39] ++
      pad2 ((-19800 : Int).natAbs % 3600 / 60) ++ [39] ∧
    (pad2 ((-19800 : Int).natAbs % 3600 / 60)).length = 2 ∧
    (∀ c ∈ pad2 ((-19800 : Int).natAbs / 3600), 48 ≤ c ∧ c ≤ 57) ∧
    (∀ c ∈ pad2 ((-19800 : Int).natAbs % 3600 / 60), 48 ≤ c ∧ c ≤ 57) ∧
    ((-19800 : Int).natAbs < 360000 →
      (pad2 ((-19800 : Int).natAbs / 3600)).length = 2) :=
  claim_C6_moddate_stamp docEmpty docStamp (litB "X") (litB "Y")
    (litB "20240101120000") (-19800) rfl

/-- C8: List returns the empty collection — never an error — when the
trailer has no `Info` entry, when the entry is not a reference, when the
reference does not resolve, or when the resolved object is not a
dictionary; and on any document List never fails. -/
theorem claim_C8_list_missing_info (d : Doc) :
    (dictGet d.trailer infoKey = none → listMeta d = some []) ∧
    (∀ o, dictGet d.trailer infoKey = some o → asReference o = none →
      listMeta d = some []) ∧
    (∀ id, (dictGet d.trailer infoKey).bind asReference = some id →
      objGet d.objects id = none → listMeta d = some []) ∧
    (∀ id o, (dictGet d.trailer infoKey).bind asReference = some id →
      objGet d.objects id = some o → (∀ dct, o ≠ .dictionary dct) →
      listMeta d = some []) ∧
    (∃ l, listMeta d = some l) := by
  refine ⟨?_, ?_, ?_, ?_, listMeta_isSome d⟩
  · intro h
    unfold listMeta
    rw [h]
    rfl
  · intro o h1 h2
    unfold listMeta
    rw [h1, Option.some_bind, h2]
  · intro id h1 h2
    unfold listMeta
    rw [h1]
    dsimp only
    rw [h2]
  · intro id o h1 h2 hno
    unfold listMeta
    rw [h1]
    dsimp only
    rw [h2]
    dsimp only
    cases o with
    | dictionary dct => exact absurd rfl (hno dct)
    | null => rfl
    | boolean b => rfl
    | integer i => rfl
    | real t => rfl
    | name nb => rfl
    | string s f => rfl
    | array es => rfl
    | stream => rfl
    | reference rid => rfl

/-- Witness for C8 on the fresh empty document. -/
theorem claim_C8_witness : listMeta docEmpty = some [] :=
  (claim_C8_list_missing_info docEmpty).1 rfl

/-- C7: in-place update of a non-existent path fails with the
distinguished Not-Found error before any mutation: no load, no temporary
file, and the returned filesystem is the input one, untouched. -/
theorem claim_C7_notfound_before_mutation
    (parse : List Nat → Option Doc) (serialize : Doc → List Nat)
    (env : FsOracle) (fs : FS) (path key value stamp : List Nat)
    (h : fs path = none) :
    update_metadata_in_place parse serialize env fs path key value stamp =
      (.error .notFound, fs) := by
  unfold update_metadata_in_place
  rw [h]

/-- Witness for C7: the empty filesystem. -/
theorem claim_C7_witness :
    fsEmpty (litB "missing.pdf") = none ∧
    update_metadata_in_place (fun _ => some docEmpty) (fun _ => [9]) 
      ⟨0, true, none, true, true⟩ fsEmpty (litB "missing.pdf")
      (litB "k") (litB "v") (litB "D:1") = (.error .notFound, fsEmpty) :=
  ⟨rfl, claim_C7_notfound_before_mutation _ _ _ _ _ _ _ _ rfl⟩

/-- C1: the atomic-replace protocol after a successful load and Put —
save failure surfaces the serialization error with the target unchanged
and the temporary file removed (best-effort: removal happens whenever the
deletion succeeds, and its failure does not change the surfaced error);
rename failure surfaces the rename error likewise; on success the target
holds the serialized updated document and no temporary file remains. -/
theorem claim_C1_atomic_replace
    (parse : List Nat → Option Doc) (serialize : Doc → List Nat)
    (env : FsOracle) (fs : FS) (path key value stamp bytes : List Nat)
    (doc doc2 : Doc)
    (hfs : fs path = some bytes) (hparse : parse bytes = some doc)
    (hput : putMeta doc key value stamp = some doc2) :
    ((update_metadata_in_place parse serialize env fs path key value stamp).1 =
      if env.saveOk then
        (if env.renameOk then .ok () else .error .renameFailed)
      else .error .saveFailed) ∧
    ((env.saveOk = false ∨ env.renameOk = false) →
      (update_metadata_in_place parse serialize env fs path key value stamp).2 path =
        fs path ∧
      (env.removeOk = true →
        (update_metadata_in_place parse serialize env fs path key value stamp).2
          (tempName path env.ts) = none)) ∧
    (env.saveOk = true → env.renameOk = true →
      (update_metadata_in_place parse serialize env fs path key value stamp).2 path =
        some (serialize doc2) ∧
      (update_metadata_in_place parse serialize env fs path key value stamp).2
        (tempName path env.ts) = none) := by
  have hne : path ≠ tempName path env.ts :=
    fun h => tempName_ne path env.ts h.symm
  have hne2 : tempName path env.ts ≠ path := tempName_ne path env.ts
  unfold update_metadata_in_place
  rw [hfs]
  dsimp only
  rw [hparse]
  dsimp only
  rw [hput]
  dsimp only
  rcases env with ⟨ts, sOk, sPart, rOk, remOk⟩
  dsimp only at hne hne2 ⊢
  cases sOk <;> cases rOk <;> cases remOk <;>
    rcases sPart with _ | junk <;>
    simp_all [fsSet, fsRemove]

/-- Concrete fixture filesystem for the C1 witness. -/
def fsOne : FS := fun q => if q = litB "doc.pdf" then some [1] else none

/-- The document written by the C1 witness Put. -/
def docKV : Doc :=
  ⟨[(litB "Info", .reference (1, 0))],
   [((1, 0), .dictionary
      [(litB "k", .string (litB "v") .literal),
       (litB "ModDate", .string (litB "D:1") .literal)])], 1⟩

/-- Witness for C1: a successful end-to-end in-place update. -/
theorem claim_C1_witness :
    (update_metadata_in_place (fun _ => some docEmpty) (fun _ => [9])
        ⟨7, true, none, true, true⟩ fsOne (litB "doc.pdf")
        (litB "k") (litB "v") (litB "D:1")).1 = .ok () ∧
    (update_metadata_in_place (fun _ => some docEmpty) (fun _ => [9])
        ⟨7, true, none, true, true⟩ fsOne (litB "doc.pdf")
        (litB "k") (litB "v") (litB "D:1")).2 (litB "doc.pdf") = some [9] ∧
    (update_metadata_in_place (fun _ => some docEmpty) (fun _ => [9])
        ⟨7, true, none, true, true⟩ fsOne (litB "doc.pdf")
        (litB "k") (litB "v") (litB "D:1")).2
      (tempName (litB "doc.pdf") 7) = none := by
  have h := claim_C1_atomic_replace (fun _ => some docEmpty) (fun _ => [9])
    ⟨7, true, none, true, true⟩ fsOne (litB "doc.pdf")
    (litB "k") (litB "v") (litB "D:1") [1] docEmpty docKV rfl rfl rfl
  obtain ⟨h1, -, h3⟩ := h
  exact ⟨by rw [h1]; rfl, (h3 rfl rfl).1, (h3 rfl rfl).2⟩

end PdfMeta
